import Mathlib

/- Verification development for the dual-store session lifecycle of the
user-management backend.

Embedded source:
  - SessionService in src/backend/src/auth/auth.service.ts (createSession,
    validateSession, invalidateSession, invalidateAllUserSessions,
    refreshSession, getUserSessions, cleanupExpiredSessions,
    validateSessionToken);
  - the RedisService wrapper (set/get/del/expire/hset/hgetall/hdel) and the
    PrismaService session table operations they call.

Modelling conventions:
  - Time is an explicit epoch-millisecond clock `nowMs`, constant during a
    single service call (every `new Date()` / `Date.now()` inside one call
    reads the same instant).
  - The fast store is an association list from string keys to entries that
    are either plain string values or hash maps, each with an optional
    absolute expiry; a key whose expiry has passed behaves as absent,
    exactly like a lapsed Redis TTL.  Wrong-type operations (for example
    GET on a hash key) throw, as in ioredis.
  - Stored session payloads are modelled symbolically: `SVal.sess d` is the
    JSON serialization of the record `d` (JSON round-trips this shape), and
    `SVal.raw s` is a syntactically invalid string on which JSON.parse
    throws.
  - JWTs are modelled symbolically: `Token.signed p` is a string that
    verifies with payload `p`; `Token.bad s` is a string whose verification
    throws.
  - Thrown exceptions are `Except.error ()`; awaited calls sequence through
    explicit matches, and a try/catch that only logs is modelled by keeping
    the post-state and discarding the error.
  - Transient infrastructure failures are injected through two fault lists;
    each fast-store (resp. durable-store) call consumes the head of its
    list and throws when that head is true.  Empty lists mean the store
    operates normally.
  - The nondeterministic session id (randomBytes) is passed in explicitly. -/

/-- JWT payload, as in jwt.strategy.ts. -/
structure JwtPayload where
  sub : String
  email : String
  role : String
deriving DecidableEq, Repr

/-- Symbolic model of signed JWT credential strings. -/
inductive Token where
  | signed (p : JwtPayload) : Token
  | bad (s : String) : Token
deriving DecidableEq, Repr

/-- The SessionData interface stored (as JSON) in the fast store. -/
structure SessionData where
  userId : String
  email : String
  role : String
  jwtToken : Token
  createdAt : Nat
  expiresAt : Nat
  ipAddress : Option String
  userAgent : Option String
deriving DecidableEq, Repr

/-- Value held under a plain fast-store string key. -/
inductive SVal where
  | sess (d : SessionData) : SVal
  | raw (s : String) : SVal
deriving DecidableEq, Repr

/-- Content of a fast-store entry: a string value or a hash map. -/
inductive RContent where
  | str (v : SVal) : RContent
  | hash (fields : List (String × String)) : RContent
deriving DecidableEq, Repr

/-- A fast-store entry together with its optional absolute expiry. -/
structure REntry where
  content : RContent
  expireAtMs : Option Nat
deriving DecidableEq, Repr

/-- Row of the durable user_sessions table. -/
structure DbSession where
  id : String
  userId : String
  token : Token
  expiresAt : Nat
  createdAt : Nat
  isActive : Bool
deriving DecidableEq, Repr

/-- Row of the durable users table (the columns the session manager reads). -/
structure DbUser where
  id : String
  email : String
  role : String
  status : String
deriving DecidableEq, Repr

/-- The durable store. -/
structure DbState where
  sessions : List DbSession
  users : List DbUser
deriving DecidableEq, Repr

/-- Whole-system state: both stores, the clock, and injected store faults. -/
structure World where
  redis : List (String × REntry)
  db : DbState
  nowMs : Nat
  redisFaults : List Bool
  dbFaults : List Bool
deriving DecidableEq, Repr

/-- The session-relevant projection of UserResponseDto. -/
structure UserResponseDto where
  id : String
  email : String
  role : String
  status : String
deriving DecidableEq, Repr

def toUserDto (u : DbUser) : UserResponseDto :=
  { id := u.id, email := u.email, role := u.role, status := u.status }

/-- Fast-store key of a session record: the sessionPrefix of the source. -/
def sessKeyOf (sid : String) : String := "session:" ++ sid

/-- Fast-store key of a user's session index: the userSessionsPrefix. -/
def userKeyOf (uid : String) : String := "user_sessions:" ++ uid

/-- Replace-or-insert into an association list. -/
def aset : List (String × REntry) → String → REntry → List (String × REntry)
  | [], k, e => [(k, e)]
  | (k', e') :: rest, k, e =>
    if k = k' then (k, e) :: rest else (k', e') :: aset rest k e

/-- Lookup in an association list. -/
def aget : List (String × REntry) → String → Option REntry
  | [], _ => none
  | (k', e') :: rest, k => if k = k' then some e' else aget rest k

/-- Remove a key from an association list. -/
def aremove : List (String × REntry) → String → List (String × REntry)
  | [], _ => []
  | (k', e') :: rest, k =>
    if k = k' then aremove rest k else (k', e') :: aremove rest k

/-- Replace-or-insert a hash field. -/
def fset : List (String × String) → String → String → List (String × String)
  | [], f, v => [(f, v)]
  | (f', v') :: rest, f, v =>
    if f = f' then (f, v) :: rest else (f', v') :: fset rest f v

/-- Remove a hash field. -/
def fdel : List (String × String) → String → List (String × String)
  | [], _ => []
  | (f', v') :: rest, f =>
    if f = f' then fdel rest f else (f', v') :: fdel rest f

/-- Whether an entry with the given optional expiry is still live at `now`. -/
def aliveAt (now : Nat) : Option Nat → Bool
  | none => true
  | some t => decide (now < t)

/-- Live content at a key: a lapsed entry behaves as absent. -/
def lookupAliveL (now : Nat) (l : List (String × REntry)) (k : String) :
    Option RContent :=
  match aget l k with
  | none => none
  | some e => if aliveAt now e.expireAtMs then some e.content else none

def lookupAlive (w : World) (k : String) : Option RContent :=
  lookupAliveL w.nowMs w.redis k

/-- Consume the next injected fast-store fault. -/
def takeRedisFault (w : World) : Bool × World :=
  match w.redisFaults with
  | [] => (false, w)
  | b :: rest => (b, { w with redisFaults := rest })

/-- Consume the next injected durable-store fault. -/
def takeDbFault (w : World) : Bool × World :=
  match w.dbFaults with
  | [] => (false, w)
  | b :: rest => (b, { w with dbFaults := rest })

/-- RedisService.get. -/
def redisGet (k : String) (w : World) : Except Unit (Option SVal) × World :=
  match takeRedisFault w with
  | (true, w') => (.error (), w')
  | (false, w') =>
    match lookupAlive w' k with
    | some (.str v) => (.ok (some v), w')
    | some (.hash _) => (.error (), w')
    | none => (.ok none, w')

/-- RedisService.set: a zero ttl is falsy in the source wrapper, so it stores
without expiry; a positive ttl stores with absolute expiry now + ttl seconds. -/
def redisSet (k : String) (v : SVal) (ttlSeconds : Nat) (w : World) :
    Except Unit Unit × World :=
  match takeRedisFault w with
  | (true, w') => (.error (), w')
  | (false, w') =>
    let e : REntry :=
      { content := .str v,
        expireAtMs :=
          if ttlSeconds = 0 then none
          else some (w'.nowMs + ttlSeconds * 1000) }
    (.ok (), { w' with redis := aset w'.redis k e })

/-- RedisService.del (the returned deletion count is unused by the service). -/
def redisDel (k : String) (w : World) : Except Unit Unit × World :=
  match takeRedisFault w with
  | (true, w') => (.error (), w')
  | (false, w') => (.ok (), { w' with redis := aremove w'.redis k })

/-- RedisService.expire. -/
def redisExpire (k : String) (ttlSeconds : Nat) (w : World) :
    Except Unit Bool × World :=
  match takeRedisFault w with
  | (true, w') => (.error (), w')
  | (false, w') =>
    match aget w'.redis k with
    | none => (.ok false, w')
    | some e =>
      if aliveAt w'.nowMs e.expireAtMs then
        let e' : REntry := { e with expireAtMs := some (w'.nowMs + ttlSeconds * 1000) }
        (.ok true, { w' with redis := aset w'.redis k e' })
      else (.ok false, w')

/-- RedisService.hset: creates the hash if absent (or lapsed), preserves the
entry expiry otherwise, and throws on a wrong-typed key. -/
def redisHset (k f v : String) (w : World) : Except Unit Unit × World :=
  match takeRedisFault w with
  | (true, w') => (.error (), w')
  | (false, w') =>
    match aget w'.redis k with
    | some e =>
      if aliveAt w'.nowMs e.expireAtMs then
        match e.content with
        | .hash flds =>
          let e' : REntry := { e with content := .hash (fset flds f v) }
          (.ok (), { w' with redis := aset w'.redis k e' })
        | .str _ => (.error (), w')
      else
        let e' : REntry := { content := .hash [(f, v)], expireAtMs := none }
        (.ok (), { w' with redis := aset w'.redis k e' })
    | none =>
      let e' : REntry := { content := .hash [(f, v)], expireAtMs := none }
      (.ok (), { w' with redis := aset w'.redis k e' })

/-- RedisService.hdel. -/
def redisHdel (k f : String) (w : World) : Except Unit Unit × World :=
  match takeRedisFault w with
  | (true, w') => (.error (), w')
  | (false, w') =>
    match aget w'.redis k with
    | some e =>
      if aliveAt w'.nowMs e.expireAtMs then
        match e.content with
        | .hash flds =>
          let e' : REntry := { e with content := .hash (fdel flds f) }
          (.ok (), { w' with redis := aset w'.redis k e' })
        | .str _ => (.error (), w')
      else (.ok (), w')
    | none => (.ok (), w')

/-- RedisService.hgetall: an absent (or lapsed) key yields the empty object. -/
def redisHgetall (k : String) (w : World) :
    Except Unit (List (String × String)) × World :=
  match takeRedisFault w with
  | (true, w') => (.error (), w')
  | (false, w') =>
    match lookupAlive w' k with
    | some (.hash flds) => (.ok flds, w')
    | some (.str _) => (.error (), w')
    | none => (.ok [], w')

/-- prisma.userSession.create: throws on a duplicate primary key. -/
def dbCreateSession (s : DbSession) (w : World) : Except Unit Unit × World :=
  match takeDbFault w with
  | (true, w') => (.error (), w')
  | (false, w') =>
    if w'.db.sessions.any (fun r => r.id == s.id) then (.error (), w')
    else
      (.ok (),
        { w' with db := { w'.db with sessions := w'.db.sessions ++ [s] } })

/-- First session row matching id and isActive, as findUnique with the
where-clause { id, isActive: true }. -/
def findActiveSession : List DbSession → String → Option DbSession
  | [], _ => none
  | r :: rest, sid =>
    if r.id = sid ∧ r.isActive = true then some r
    else findActiveSession rest sid

/-- First user row with the given id. -/
def findUser : List DbUser → String → Option DbUser
  | [], _ => none
  | u :: rest, uid => if u.id = uid then some u else findUser rest uid

/-- prisma.userSession.findUnique({ where: { id, isActive: true },
include: { user: true } }).  The user relation is required (foreign key), so
a dangling userId would crash when dereferenced; that is modelled as a throw. -/
def dbFindActiveSessionWithUser (sid : String) (w : World) :
    Except Unit (Option (DbSession × DbUser)) × World :=
  match takeDbFault w with
  | (true, w') => (.error (), w')
  | (false, w') =>
    match findActiveSession w'.db.sessions sid with
    | none => (.ok none, w')
    | some r =>
      match findUser w'.db.users r.userId with
      | some u => (.ok (some (r, u)), w')
      | none => (.error (), w')

/-- prisma.userSession.updateMany. -/
def dbUpdateSessions (pred : DbSession → Bool) (upd : DbSession → DbSession)
    (w : World) : Except Unit Unit × World :=
  match takeDbFault w with
  | (true, w') => (.error (), w')
  | (false, w') =>
    (.ok (),
      { w' with db := { w'.db with
          sessions := w'.db.sessions.map fun r => if pred r then upd r else r } })

/-- prisma.userSession.deleteMany. -/
def dbDeleteSessions (pred : DbSession → Bool) (w : World) :
    Except Unit Unit × World :=
  match takeDbFault w with
  | (true, w') => (.error (), w')
  | (false, w') =>
    (.ok (),
      { w' with db := { w'.db with
          sessions := w'.db.sessions.filter fun r => !pred r } })

/-- prisma.userSession.findMany. -/
def dbFindSessions (pred : DbSession → Bool) (w : World) :
    Except Unit (List DbSession) × World :=
  match takeDbFault w with
  | (true, w') => (.error (), w')
  | (false, w') => (.ok (w'.db.sessions.filter pred), w')

/-- prisma.user.findUnique({ where: { id } }). -/
def dbFindUserById (uid : String) (w : World) :
    Except Unit (Option DbUser) × World :=
  match takeDbFault w with
  | (true, w') => (.error (), w')
  | (false, w') => (.ok (findUser w'.db.users uid), w')

/-- jwtService.verify: succeeds exactly on symbolically signed tokens. -/
def jwtVerify (t : Token) (w : World) : Except Unit JwtPayload × World :=
  match t with
  | .signed p => (.ok p, w)
  | .bad _ => (.error (), w)

/-- SessionService.createSession.  The session id (randomBytes) is passed in;
the durable-store write is wrapped in try/catch and its failure is swallowed
(Redis-only session), while fast-store failures propagate. -/
def createSession (sessionTtl : Nat) (user : UserResponseDto) (jwtToken : Token)
    (ipAddress userAgent : Option String) (sessionId : String) (w : World) :
    Except Unit String × World :=
  let expiresAt := w.nowMs + sessionTtl * 1000
  let sessionData : SessionData :=
    { userId := user.id, email := user.email, role := user.role,
      jwtToken := jwtToken, createdAt := w.nowMs, expiresAt := expiresAt,
      ipAddress := ipAddress, userAgent := userAgent }
  match redisSet (sessKeyOf sessionId) (.sess sessionData) sessionTtl w with
  | (.error e, w1) => (.error e, w1)
  | (.ok _, w1) =>
    match redisHset (userKeyOf user.id) sessionId (sessKeyOf sessionId) w1 with
    | (.error e, w2) => (.error e, w2)
    | (.ok _, w2) =>
      match redisExpire (userKeyOf user.id) sessionTtl w2 with
      | (.error e, w3) => (.error e, w3)
      | (.ok _, w3) =>
        match dbCreateSession
            { id := sessionId, userId := user.id, token := jwtToken,
              expiresAt := expiresAt, createdAt := w.nowMs,
              isActive := true } w3 with
        | (.ok _, w4) => (.ok sessionId, w4)
        | (.error _, w4) => (.ok sessionId, w4)

/-- SessionService.invalidateSession.  The parse-and-hdel step sits in a
try/catch that only logs; the final durable updateMany is likewise swallowed. -/
def invalidateSession (sessionId : String) (w : World) :
    Except Unit Unit × World :=
  match redisGet (sessKeyOf sessionId) w with
  | (.error e, w1) => (.error e, w1)
  | (.ok sessionDataStr, w1) =>
    let afterHdel : World :=
      match sessionDataStr with
      | some (.sess sessionData) =>
        (redisHdel (userKeyOf sessionData.userId) sessionId w1).2
      | some (.raw _) => w1
      | none => w1
    match redisDel (sessKeyOf sessionId) afterHdel with
    | (.error e, w2) => (.error e, w2)
    | (.ok _, w2) =>
      (.ok (),
        (dbUpdateSessions (fun r => r.id == sessionId)
          (fun r => { r with isActive := false }) w2).2)

/-- SessionService.validateSession.  Primary path: fast-store read, JSON
parse, expiry check (self-healing invalidation on corruption or expiry; a
throw escaping the try is re-handled by the catch, which invalidates again).
Recovery path on a miss: durable lookup of an active record with its user,
expiry check, and fast-store repopulation when at least one whole second of
TTL remains. -/
def validateSession (sessionId : String) (w : World) :
    Except Unit (Option SessionData) × World :=
  match redisGet (sessKeyOf sessionId) w with
  | (.error e, w1) => (.error e, w1)
  | (.ok none, w1) =>
    match dbFindActiveSessionWithUser sessionId w1 with
    | (.error e, w2) => (.error e, w2)
    | (.ok none, w2) => (.ok none, w2)
    | (.ok (some (dbSession, dbUser)), w2) =>
      if dbSession.expiresAt < w2.nowMs then (.ok none, w2)
      else
        let sessionData : SessionData :=
          { userId := dbSession.userId, email := dbUser.email,
            role := dbUser.role, jwtToken := dbSession.token,
            createdAt := dbSession.createdAt,
            expiresAt := dbSession.expiresAt,
            ipAddress := none, userAgent := none }
        let ttl := (dbSession.expiresAt - w2.nowMs) / 1000
        if 0 < ttl then
          match redisSet (sessKeyOf sessionId) (.sess sessionData) ttl w2 with
          | (.error e, w3) => (.error e, w3)
          | (.ok _, w3) => (.ok (some sessionData), w3)
        else (.ok none, w2)
  | (.ok (some v), w1) =>
    match v with
    | .raw _ =>
      match invalidateSession sessionId w1 with
      | (.error e, w2) => (.error e, w2)
      | (.ok _, w2) => (.ok none, w2)
    | .sess sessionData =>
      if sessionData.expiresAt < w1.nowMs then
        match invalidateSession sessionId w1 with
        | (.ok _, w2) => (.ok none, w2)
        | (.error _, w2) =>
          match invalidateSession sessionId w2 with
          | (.error e, w3) => (.error e, w3)
          | (.ok _, w3) => (.ok none, w3)
      else (.ok (some sessionData), w1)

/-- SessionService.refreshSession. -/
def refreshSession (sessionTtl : Nat) (sessionId : String) (w : World) :
    Except Unit Bool × World :=
  match validateSession sessionId w with
  | (.error e, w1) => (.error e, w1)
  | (.ok none, w1) => (.ok false, w1)
  | (.ok (some sessionData), w1) =>
    let newExpiresAt := w1.nowMs + sessionTtl * 1000
    match redisSet (sessKeyOf sessionId)
        (.sess { sessionData with expiresAt := newExpiresAt }) sessionTtl w1 with
    | (.error e, w2) => (.error e, w2)
    | (.ok _, w2) =>
      match redisExpire (userKeyOf sessionData.userId) sessionTtl w2 with
      | (.error e, w3) => (.error e, w3)
      | (.ok _, w3) =>
        (.ok true,
          (dbUpdateSessions (fun r => r.id == sessionId)
            (fun r => { r with expiresAt := newExpiresAt }) w3).2)

/-- Sequenced fan-out of invalidateSession over a list of session ids (the
source awaits Promise.all of the same calls). -/
def invalidateEach : List String → World → Except Unit Unit × World
  | [], w => (.ok (), w)
  | sid :: rest, w =>
    match invalidateSession sid w with
    | (.error e, w1) => (.error e, w1)
    | (.ok _, w1) => invalidateEach rest w1

/-- SessionService.invalidateAllUserSessions. -/
def invalidateAllUserSessions (userId : String) (w : World) :
    Except Unit Unit × World :=
  match redisHgetall (userKeyOf userId) w with
  | (.error e, w1) => (.error e, w1)
  | (.ok userSessions, w1) =>
    match invalidateEach (userSessions.map Prod.fst) w1 with
    | (.error e, w2) => (.error e, w2)
    | (.ok _, w2) =>
      match redisDel (userKeyOf userId) w2 with
      | (.error e, w3) => (.error e, w3)
      | (.ok _, w3) =>
        (.ok (),
          (dbUpdateSessions (fun r => r.userId == userId && r.isActive)
            (fun r => { r with isActive := false }) w3).2)

/-- The loop body of getUserSessions over the indexed session ids. -/
def collectSessions : List String → World → Except Unit (List SessionData) × World
  | [], w => (.ok [], w)
  | sid :: rest, w =>
    match validateSession sid w with
    | (.error e, w1) => (.error e, w1)
    | (.ok none, w1) => collectSessions rest w1
    | (.ok (some d), w1) =>
      match collectSessions rest w1 with
      | (.error e, w2) => (.error e, w2)
      | (.ok l, w2) => (.ok (d :: l), w2)

/-- SessionService.getUserSessions. -/
def getUserSessions (userId : String) (w : World) :
    Except Unit (List SessionData) × World :=
  match redisHgetall (userKeyOf userId) w with
  | (.error e, w1) => (.error e, w1)
  | (.ok sessionKeys, w1) => collectSessions (sessionKeys.map Prod.fst) w1

/-- Records the sweep targets: expired or inactive. -/
def expiredOrInactive (now : Nat) (r : DbSession) : Bool :=
  decide (r.expiresAt < now) || !r.isActive

/-- The fast-store cleanup loop of cleanupExpiredSessions. -/
def cleanupRedisEntries : List DbSession → World → Except Unit Unit × World
  | [], w => (.ok (), w)
  | r :: rest, w =>
    match redisDel (sessKeyOf r.id) w with
    | (.error e, w1) => (.error e, w1)
    | (.ok _, w1) =>
      match redisHdel (userKeyOf r.userId) r.id w1 with
      | (.error e, w2) => (.error e, w2)
      | (.ok _, w2) => cleanupRedisEntries rest w2

/-- Body of SessionService.cleanupExpiredSessions before the enclosing
try/catch. -/
def cleanupBody (w : World) : Except Unit Unit × World :=
  match dbFindSessions (expiredOrInactive w.nowMs) w with
  | (.error e, w1) => (.error e, w1)
  | (.ok expiredSessions, w1) =>
    match cleanupRedisEntries expiredSessions w1 with
    | (.error e, w2) => (.error e, w2)
    | (.ok _, w2) =>
      match dbDeleteSessions (expiredOrInactive w2.nowMs) w2 with
      | (.error e, w3) => (.error e, w3)
      | (.ok _, w3) => (.ok (), w3)

/-- SessionService.cleanupExpiredSessions: the whole body is wrapped in a
try/catch that logs and swallows any failure. -/
def cleanupExpiredSessions (w : World) : Except Unit Unit × World :=
  (.ok (), (cleanupBody w).2)

/-- PrismaService.cleanupExpiredSessions (durable store only): deleteMany of
rows with expiresAt < now, returning the count; failures are rethrown. -/
def prismaCleanupExpiredSessions (w : World) : Except Unit Nat × World :=
  match takeDbFault w with
  | (true, w') => (.error (), w')
  | (false, w') =>
    (.ok (w'.db.sessions.filter fun r => decide (r.expiresAt < w'.nowMs)).length,
      { w' with db := { w'.db with
          sessions := w'.db.sessions.filter fun r =>
            !decide (r.expiresAt < w'.nowMs) } })

/-- The catch block of validateSessionToken: log, invalidate, return null. -/
def vstCatch (sessionId : String) (w : World) :
    Except Unit (Option UserResponseDto) × World :=
  match invalidateSession sessionId w with
  | (.error e, w1) => (.error e, w1)
  | (.ok _, w1) => (.ok none, w1)

/-- SessionService.validateSessionToken: resolve the session, verify the
bound JWT, re-fetch the user, and require status ACTIVE; the try/catch around
verification and user lookup invalidates the session on any throw. -/
def validateSessionToken (sessionId : String) (w : World) :
    Except Unit (Option UserResponseDto) × World :=
  match validateSession sessionId w with
  | (.error e, w1) => (.error e, w1)
  | (.ok none, w1) => (.ok none, w1)
  | (.ok (some sessionData), w1) =>
    match jwtVerify sessionData.jwtToken w1 with
    | (.error _, w2) => vstCatch sessionId w2
    | (.ok payload, w2) =>
      match dbFindUserById payload.sub w2 with
      | (.error _, w3) => vstCatch sessionId w3
      | (.ok none, w3) =>
        match invalidateSession sessionId w3 with
        | (.error _, w4) => vstCatch sessionId w4
        | (.ok _, w4) => (.ok none, w4)
      | (.ok (some user), w3) =>
        if user.status ≠ "ACTIVE" then
          match invalidateSession sessionId w3 with
          | (.error _, w4) => vstCatch sessionId w4
          | (.ok _, w4) => (.ok none, w4)
        else (.ok (some (toUserDto user)), w3)

/- Concrete example inputs used by witnesses and counterexamples. -/

def exUser : UserResponseDto :=
  { id := "u1", email := "u1@example.com", role := "USER", status := "ACTIVE" }

def exPayload : JwtPayload :=
  { sub := "u1", email := "u1@example.com", role := "USER" }

def exTok : Token := .signed exPayload

def exDbUser : DbUser :=
  { id := "u1", email := "u1@example.com", role := "USER", status := "ACTIVE" }

/-- A world with an empty fast store, one user row, clock at 1000 ms, and no
injected faults. -/
def exWorld : World :=
  { redis := [], db := { sessions := [], users := [exDbUser] }, nowMs := 1000,
    redisFaults := [], dbFaults := [] }

/-- exWorld with one injected durable-store fault. -/
def exWorldDbFail : World := { exWorld with dbFaults := [true] }

/-- exWorld with a fast-store fault on the first call. -/
def exWorldRf1 : World := { exWorld with redisFaults := [true] }

/-- exWorld with a fast-store fault on the second call. -/
def exWorldRf2 : World := { exWorld with redisFaults := [false, true] }

/-- exWorld with a fast-store fault on the third call. -/
def exWorldRf3 : World := { exWorld with redisFaults := [false, false, true] }

/-- A durable row for user u1 with id s1, active, expiring at 1500 ms. -/
def cexC3Row : DbSession :=
  { id := "s1", userId := "u1", token := exTok, expiresAt := 1500,
    createdAt := 0, isActive := true }

/-- World whose fast store is empty while the durable store holds an active
record that expires 500 ms in the future (less than one whole second). -/
def cexWorldC3 : World :=
  { redis := [], db := { sessions := [cexC3Row], users := [exDbUser] },
    nowMs := 1000, redisFaults := [], dbFaults := [] }

/-- Like cexWorldC3 but with five full seconds to expiry. -/
def exWorldC3 : World :=
  { redis := [],
    db := { sessions := [{ cexC3Row with expiresAt := 6000 }], users := [exDbUser] },
    nowMs := 1000, redisFaults := [], dbFaults := [] }

/-- A live session record for u1 expiring at 5000 ms. -/
def exSess : SessionData :=
  { userId := "u1", email := "u1@example.com", role := "USER", jwtToken := exTok,
    createdAt := 0, expiresAt := 5000, ipAddress := none, userAgent := none }

/-- World whose fast store holds the live record exSess under session:s1. -/
def exWorldC1 : World :=
  { redis := [("session:s1", ⟨.str (.sess exSess), none⟩)],
    db := { sessions := [], users := [exDbUser] }, nowMs := 1000,
    redisFaults := [], dbFaults := [] }

/-- World whose fast store holds a non-parseable value under session:s1. -/
def cexWorldCorrupt : World :=
  { redis := [("session:s1", ⟨.str (.raw "oops"), none⟩)],
    db := { sessions := [], users := [exDbUser] }, nowMs := 1000,
    redisFaults := [], dbFaults := [] }

/-- The world after refreshing s1 in exWorldC1 with a 4-second TTL at the
same instant (new expiry 1000 + 4000 = 5000 = the previous expiry). -/
def cexC6After : World := (refreshSession 4 "s1" exWorldC1).2

/-- Active durable row for s1. -/
def exRowC8 : DbSession :=
  { id := "s1", userId := "u1", token := exTok, expiresAt := 5000,
    createdAt := 0, isActive := true }

/-- World with one live session for u1, indexed, and its durable row. -/
def exWorldC8 : World :=
  { redis := [("session:s1", ⟨.str (.sess exSess), none⟩),
              ("user_sessions:u1", ⟨.hash [("s1", "session:s1")], none⟩)],
    db := { sessions := [exRowC8], users := [exDbUser] }, nowMs := 1000,
    redisFaults := [], dbFaults := [] }

/-- Durable row for s1 that is inactive but not expired. -/
def cexRowC9 : DbSession :=
  { id := "s1", userId := "u1", token := exTok, expiresAt := 5000,
    createdAt := 0, isActive := false }

/-- World containing only the inactive unexpired row. -/
def cexWorldC9 : World :=
  { redis := [], db := { sessions := [cexRowC9], users := [exDbUser] },
    nowMs := 1000, redisFaults := [], dbFaults := [] }

/-- Durable row for s1 that is expired yet still marked active. -/
def cexRowC5 : DbSession :=
  { id := "s1", userId := "u1", token := exTok, expiresAt := 500,
    createdAt := 0, isActive := true }

/-- World where s1 only exists as the expired-but-active durable row. -/
def cexWorldC5 : World :=
  { redis := [], db := { sessions := [cexRowC5], users := [exDbUser] },
    nowMs := 1000, redisFaults := [], dbFaults := [] }

/-- A session record bound to a token that no longer verifies. -/
def cexSessC5 : SessionData :=
  { userId := "u1", email := "u1@example.com", role := "USER",
    jwtToken := .bad "x", createdAt := 0, expiresAt := 5000,
    ipAddress := none, userAgent := none }

/-- World whose fast store holds the bad-token record under session:s1. -/
def exWorldC5b : World :=
  { redis := [("session:s1", ⟨.str (.sess cexSessC5), none⟩)],
    db := { sessions := [], users := [exDbUser] }, nowMs := 1000,
    redisFaults := [], dbFaults := [] }

/-- World with a stale index membership for s1 but no session record. -/
def cexWorldC7 : World :=
  { redis := [("user_sessions:u1", ⟨.hash [("s1", "session:s1")], none⟩)],
    db := { sessions := [], users := [exDbUser] }, nowMs := 1000,
    redisFaults := [], dbFaults := [] }

/- Basic infrastructure lemmas. -/

/-- Abbreviation: the result of marking every row with the given id inactive. -/
def markInactive (sid : String) (l : List DbSession) : List DbSession :=
  l.map fun r => if r.id == sid then { r with isActive := false } else r

/-- Whether the hash at key k has a live field f. -/
def hasFieldL (now : Nat) (l : List (String × REntry)) (k f : String) : Bool :=
  match lookupAliveL now l k with
  | some (.hash flds) => flds.any fun p => p.1 == f
  | _ => false

/-- The record rebuilt from a durable row and its user on the recovery path. -/
def recoveryRecord (r : DbSession) (u : DbUser) : SessionData :=
  { userId := r.userId, email := u.email, role := u.role, jwtToken := r.token,
    createdAt := r.createdAt, expiresAt := r.expiresAt,
    ipAddress := none, userAgent := none }

/-- The fast-store entry written on the recovery path. -/
def recoveryEntry (r : DbSession) (u : DbUser) (now : Nat) : REntry :=
  ⟨.str (.sess (recoveryRecord r u)), some (now + (r.expiresAt - now) / 1000 * 1000)⟩

/-- The record createSession writes for the given arguments at time now. -/
def newSessionData (sessionTtl : Nat) (user : UserResponseDto) (jwtToken : Token)
    (ipAddress userAgent : Option String) (now : Nat) : SessionData :=
  { userId := user.id, email := user.email, role := user.role,
    jwtToken := jwtToken, createdAt := now, expiresAt := now + sessionTtl * 1000,
    ipAddress := ipAddress, userAgent := userAgent }

/-- No injected infrastructure faults: both stores operate normally. -/
def WNF (w : World) : Prop := w.redisFaults = [] ∧ w.dbFaults = []

/-- The durable row written by createSession. -/
def newDbRow (ttl : Nat) (user : UserResponseDto) (tok : Token) (sid : String)
    (now : Nat) : DbSession :=
  { id := sid, userId := user.id, token := tok, expiresAt := now + ttl * 1000,
    createdAt := now, isActive := true }

/-- Session id sid is owned by uid in state w: every parseable fast-store
record under its session key and every durable row with that id carries
uid. -/
def QOwner (w : World) (sid uid : String) : Prop :=
  (∀ d, lookupAlive w (sessKeyOf sid) = some (.str (.sess d)) →
    d.userId = uid) ∧
  (∀ r ∈ w.db.sessions, r.id = sid → r.userId = uid)

/-- Every live membership of a per-user index points to a session owned by
that user. -/
def IndexOwned (w : World) : Prop :=
  ∀ uid sid, hasFieldL w.nowMs w.redis (userKeyOf uid) sid = true →
    QOwner w sid uid

theorem sessKeyOf_inj {a b : String} (h : sessKeyOf a = sessKeyOf b) : a = b := by
  have hd := congrArg String.data h
  simp only [sessKeyOf, String.data_append] at hd
  exact String.ext (List.append_cancel_left hd)

theorem userKeyOf_inj {a b : String} (h : userKeyOf a = userKeyOf b) : a = b := by
  have hd := congrArg String.data h
  simp only [userKeyOf, String.data_append] at hd
  exact String.ext (List.append_cancel_left hd)

theorem sessKeyOf_ne_userKeyOf (a b : String) : sessKeyOf a ≠ userKeyOf b := by
  intro h
  have hd := congrArg String.data h
  simp only [sessKeyOf, userKeyOf, String.data_append] at hd
  simp at hd

theorem aget_aset_self (l : List (String × REntry)) (k : String) (e : REntry) :
    aget (aset l k e) k = some e := by
  induction l with
  | nil => simp [aset, aget]
  | cons p rest ih =>
    by_cases h : k = p.1
    · simp [aset, aget, h]
    · simp [aset, aget, h, ih]

theorem aget_aset_ne (l : List (String × REntry)) {k k' : String} (e : REntry)
    (h : k' ≠ k) : aget (aset l k e) k' = aget l k' := by
  induction l with
  | nil => simp [aset, aget, h]
  | cons p rest ih =>
    by_cases hk : k = p.1
    · subst hk
      simp [aset, aget, h]
    · by_cases hk' : k' = p.1
      · simp [aset, aget, hk, hk']
      · simp [aset, aget, hk, hk', ih]

theorem aget_aremove_self (l : List (String × REntry)) (k : String) :
    aget (aremove l k) k = none := by
  induction l with
  | nil => simp [aremove, aget]
  | cons p rest ih =>
    by_cases h : k = p.1
    · subst h
      simp [aremove, ih]
    · simp [aremove, aget, h, ih]

theorem aget_aremove_ne (l : List (String × REntry)) {k k' : String}
    (h : k' ≠ k) : aget (aremove l k) k' = aget l k' := by
  induction l with
  | nil => simp [aremove, aget]
  | cons p rest ih =>
    by_cases hk : k = p.1
    · subst hk
      simp [aremove, aget, h, ih]
    · by_cases hk' : k' = p.1
      · simp [aremove, aget, hk, hk']
      · simp [aremove, aget, hk, hk', ih]

theorem aremove_of_aget_none (l : List (String × REntry)) (k : String)
    (h : aget l k = none) : aremove l k = l := by
  induction l with
  | nil => simp [aremove]
  | cons p rest ih =>
    by_cases hk : k = p.1
    · simp [aget, hk] at h
    · simp [aget, hk] at h
      simp [aremove, hk, ih h]

theorem lookupAliveL_aset_self (now : Nat) (l : List (String × REntry))
    (k : String) (e : REntry) :
    lookupAliveL now (aset l k e) k =
      (if aliveAt now e.expireAtMs then some e.content else none) := by
  simp [lookupAliveL, aget_aset_self]

theorem lookupAliveL_aset_ne (now : Nat) (l : List (String × REntry))
    {k k' : String} (e : REntry) (h : k' ≠ k) :
    lookupAliveL now (aset l k e) k' = lookupAliveL now l k' := by
  simp [lookupAliveL, aget_aset_ne l e h]

theorem lookupAliveL_aremove_self (now : Nat) (l : List (String × REntry))
    (k : String) : lookupAliveL now (aremove l k) k = none := by
  simp [lookupAliveL, aget_aremove_self]

theorem lookupAliveL_aremove_ne (now : Nat) (l : List (String × REntry))
    {k k' : String} (h : k' ≠ k) :
    lookupAliveL now (aremove l k) k' = lookupAliveL now l k' := by
  simp [lookupAliveL, aget_aremove_ne l h]

theorem findActiveSession_mem {l : List DbSession} {sid : String} {r : DbSession}
    (h : findActiveSession l sid = some r) :
    r ∈ l ∧ r.id = sid ∧ r.isActive = true := by
  induction l with
  | nil => simp [findActiveSession] at h
  | cons x rest ih =>
    by_cases hx : x.id = sid ∧ x.isActive = true
    · simp [findActiveSession, hx] at h
      subst h
      exact ⟨List.mem_cons_self x rest, hx⟩
    · simp [findActiveSession, hx] at h
      obtain ⟨hm, hrest⟩ := ih h
      exact ⟨List.mem_cons_of_mem x hm, hrest⟩

theorem findActiveSession_inactive_map (l : List DbSession) (sid : String) :
    findActiveSession
      (l.map fun r => if r.id == sid then { r with isActive := false } else r)
      sid = none := by
  induction l with
  | nil => simp [findActiveSession]
  | cons x rest ih =>
    simp only [beq_iff_eq] at ih ⊢
    by_cases hx : x.id = sid
    · simp [findActiveSession, hx, ih]
    · simp [findActiveSession, hx, ih]

theorem findUser_mem {l : List DbUser} {uid : String} {u : DbUser}
    (h : findUser l uid = some u) : u ∈ l ∧ u.id = uid := by
  induction l with
  | nil => simp [findUser] at h
  | cons x rest ih =>
    by_cases hx : x.id = uid
    · simp [findUser, hx] at h
      subst h
      exact ⟨List.mem_cons_self x rest, hx⟩
    · simp [findUser, hx] at h
      obtain ⟨hm, hid⟩ := ih h
      exact ⟨List.mem_cons_of_mem x hm, hid⟩

/- Characterization of the store primitives when the store operates
normally (no injected fault at the head of the fault list). -/

theorem redisGet_nf {w : World} (h : w.redisFaults = []) (k : String) :
    redisGet k w =
      (match lookupAlive w k with
       | some (.str v) => (Except.ok (some v), w)
       | some (.hash _) => (Except.error (), w)
       | none => (Except.ok none, w)) := by
  simp [redisGet, takeRedisFault, h]

theorem redisSet_nf {w : World} (h : w.redisFaults = []) (k : String)
    (v : SVal) (t : Nat) :
    redisSet k v t w =
      (Except.ok (),
        { w with redis := aset w.redis k ⟨.str v, if t = 0 then none else some (w.nowMs + t * 1000)⟩ }) := by
  simp [redisSet, takeRedisFault, h]

theorem redisDel_nf {w : World} (h : w.redisFaults = []) (k : String) :
    redisDel k w = (Except.ok (), { w with redis := aremove w.redis k }) := by
  simp [redisDel, takeRedisFault, h]

theorem redisExpire_nf {w : World} (h : w.redisFaults = []) (k : String)
    (t : Nat) :
    redisExpire k t w =
      (match aget w.redis k with
       | none => (Except.ok false, w)
       | some e =>
         if aliveAt w.nowMs e.expireAtMs then
           (Except.ok true,
             { w with redis := aset w.redis k ⟨e.content, some (w.nowMs + t * 1000)⟩ })
         else (Except.ok false, w)) := by
  simp [redisExpire, takeRedisFault, h]

theorem redisHset_nf {w : World} (h : w.redisFaults = []) (k f v : String) :
    redisHset k f v w =
      (match aget w.redis k with
       | some e =>
         if aliveAt w.nowMs e.expireAtMs then
           match e.content with
           | .hash flds =>
             (Except.ok (),
               { w with redis := aset w.redis k ⟨.hash (fset flds f v), e.expireAtMs⟩ })
           | .str _ => (Except.error (), w)
         else
           (Except.ok (),
             { w with redis := aset w.redis k ⟨.hash [(f, v)], none⟩ })
       | none =>
         (Except.ok (),
           { w with redis := aset w.redis k ⟨.hash [(f, v)], none⟩ })) := by
  simp [redisHset, takeRedisFault, h]

theorem redisHdel_nf {w : World} (h : w.redisFaults = []) (k f : String) :
    redisHdel k f w =
      (match aget w.redis k with
       | some e =>
         if aliveAt w.nowMs e.expireAtMs then
           match e.content with
           | .hash flds =>
             (Except.ok (),
               { w with redis := aset w.redis k ⟨.hash (fdel flds f), e.expireAtMs⟩ })
           | .str _ => (Except.error (), w)
         else (Except.ok (), w)
       | none => (Except.ok (), w)) := by
  simp [redisHdel, takeRedisFault, h]

theorem redisHgetall_nf {w : World} (h : w.redisFaults = []) (k : String) :
    redisHgetall k w =
      (match lookupAlive w k with
       | some (.hash flds) => (Except.ok flds, w)
       | some (.str _) => (Except.error (), w)
       | none => (Except.ok [], w)) := by
  simp [redisHgetall, takeRedisFault, h]

theorem dbCreateSession_nf {w : World} (h : w.dbFaults = []) (s : DbSession) :
    dbCreateSession s w =
      (if w.db.sessions.any (fun r => r.id == s.id) then (Except.error (), w)
       else
         (Except.ok (),
           { w with db := { w.db with sessions := w.db.sessions ++ [s] } })) := by
  simp [dbCreateSession, takeDbFault, h]

theorem dbFindActiveSessionWithUser_nf {w : World} (h : w.dbFaults = [])
    (sid : String) :
    dbFindActiveSessionWithUser sid w =
      (match findActiveSession w.db.sessions sid with
       | none => (Except.ok none, w)
       | some r =>
         match findUser w.db.users r.userId with
         | some u => (Except.ok (some (r, u)), w)
         | none => (Except.error (), w)) := by
  simp [dbFindActiveSessionWithUser, takeDbFault, h]

theorem dbUpdateSessions_nf {w : World} (h : w.dbFaults = [])
    (pred : DbSession → Bool) (upd : DbSession → DbSession) :
    dbUpdateSessions pred upd w =
      (Except.ok (),
        { w with db := { w.db with
            sessions := w.db.sessions.map fun r => if pred r then upd r else r } }) := by
  simp [dbUpdateSessions, takeDbFault, h]

theorem dbDeleteSessions_nf {w : World} (h : w.dbFaults = [])
    (pred : DbSession → Bool) :
    dbDeleteSessions pred w =
      (Except.ok (),
        { w with db := { w.db with
            sessions := w.db.sessions.filter fun r => !pred r } }) := by
  simp [dbDeleteSessions, takeDbFault, h]

theorem dbFindSessions_nf {w : World} (h : w.dbFaults = [])
    (pred : DbSession → Bool) :
    dbFindSessions pred w = (Except.ok (w.db.sessions.filter pred), w) := by
  simp [dbFindSessions, takeDbFault, h]

theorem dbFindUserById_nf {w : World} (h : w.dbFaults = []) (uid : String) :
    dbFindUserById uid w = (Except.ok (findUser w.db.users uid), w) := by
  simp [dbFindUserById, takeDbFault, h]

theorem fdel_any_eq_false (flds : List (String × String)) (f : String) :
    ((fdel flds f).any fun p => p.1 == f) = false := by
  induction flds with
  | nil => simp [fdel]
  | cons p rest ih =>
    by_cases h : f = p.1
    · subst h
      simp [fdel, ih]
    · simp [fdel, h, ih]
      exact fun hc => h hc.symm

theorem invalidateSession_char {sid : String} {w : World} (hw : WNF w)
    (hstr : ∀ flds, lookupAlive w (sessKeyOf sid) ≠ some (.hash flds)) :
    (invalidateSession sid w).1 = .ok () ∧
    WNF (invalidateSession sid w).2 ∧
    (invalidateSession sid w).2.nowMs = w.nowMs ∧
    (invalidateSession sid w).2.db.users = w.db.users ∧
    (invalidateSession sid w).2.db.sessions = markInactive sid w.db.sessions ∧
    aget (invalidateSession sid w).2.redis (sessKeyOf sid) = none ∧
    (∀ s, s ≠ sid →
      aget (invalidateSession sid w).2.redis (sessKeyOf s) =
        aget w.redis (sessKeyOf s)) ∧
    (∀ d, lookupAlive w (sessKeyOf sid) = some (.str (.sess d)) →
      hasFieldL w.nowMs (invalidateSession sid w).2.redis
        (userKeyOf d.userId) sid = false) := by
  obtain ⟨hrf, hdf⟩ := hw
  cases hl : lookupAlive w (sessKeyOf sid) with
  | none =>
    simp only [invalidateSession, redisGet_nf, redisDel_nf, dbUpdateSessions_nf,
      hrf, hdf, hl, markInactive]
    refine ⟨trivial, ⟨rfl, rfl⟩, trivial, trivial, trivial,
      aget_aremove_self _ _, ?_, ?_⟩
    · intro s hs
      exact aget_aremove_ne _ fun hc => hs (sessKeyOf_inj hc)
    · intro d hd
      simp at hd
  | some c =>
    cases c with
    | hash flds => exact absurd hl (hstr flds)
    | str v =>
      cases v with
      | raw s =>
        simp only [invalidateSession, redisGet_nf, redisDel_nf,
          dbUpdateSessions_nf, hrf, hdf, hl, markInactive]
        refine ⟨trivial, ⟨rfl, rfl⟩, trivial, trivial, trivial,
          aget_aremove_self _ _, ?_, ?_⟩
        · intro s hs
          exact aget_aremove_ne _ fun hc => hs (sessKeyOf_inj hc)
        · intro d hd
          simp at hd
      | sess d =>
        cases hu : aget w.redis (userKeyOf d.userId) with
        | none =>
          simp only [invalidateSession, redisGet_nf, redisHdel_nf, redisDel_nf,
            dbUpdateSessions_nf, hrf, hdf, hl, hu, markInactive]
          refine ⟨trivial, ⟨rfl, rfl⟩, trivial, trivial, trivial,
            aget_aremove_self _ _, ?_, ?_⟩
          · intro s hs
            exact aget_aremove_ne _ fun hc => hs (sessKeyOf_inj hc)
          · intro d' hd
            simp only [Option.some.injEq, RContent.str.injEq,
              SVal.sess.injEq] at hd
            subst hd
            simp only [hasFieldL, lookupAliveL,
              aget_aremove_ne _ (Ne.symm (sessKeyOf_ne_userKeyOf sid d.userId)), hu]
        | some e =>
          by_cases ha : aliveAt w.nowMs e.expireAtMs
          · cases hc : e.content with
            | str v' =>
              simp only [invalidateSession, redisGet_nf, redisHdel_nf, redisDel_nf,
                dbUpdateSessions_nf, hrf, hdf, hl, hu, ha, hc, if_true, markInactive]
              refine ⟨trivial, ⟨rfl, rfl⟩, trivial, trivial, trivial,
                aget_aremove_self _ _, ?_, ?_⟩
              · intro s hs
                exact aget_aremove_ne _ fun hcc => hs (sessKeyOf_inj hcc)
              · intro d' hd
                simp only [Option.some.injEq, RContent.str.injEq,
                  SVal.sess.injEq] at hd
                subst hd
                simp only [hasFieldL, lookupAliveL,
                  aget_aremove_ne _ (Ne.symm (sessKeyOf_ne_userKeyOf sid d.userId)),
                  hu, ha, if_true, hc]
            | hash flds =>
              simp only [invalidateSession, redisGet_nf, redisHdel_nf, redisDel_nf,
                dbUpdateSessions_nf, hrf, hdf, hl, hu, ha, hc, if_true, markInactive]
              refine ⟨trivial, ⟨rfl, rfl⟩, trivial, trivial, trivial, ?_, ?_, ?_⟩
              · exact aget_aremove_self _ _
              · intro s hs
                rw [aget_aremove_ne _ fun hcc => hs (sessKeyOf_inj hcc)]
                exact aget_aset_ne _ _ (sessKeyOf_ne_userKeyOf s d.userId)
              · intro d' hd
                simp only [Option.some.injEq, RContent.str.injEq,
                  SVal.sess.injEq] at hd
                subst hd
                simp only [hasFieldL, lookupAliveL,
                  aget_aremove_ne _ (Ne.symm (sessKeyOf_ne_userKeyOf sid d.userId)),
                  aget_aset_self, ha, if_true, fdel_any_eq_false]
          · simp only [invalidateSession, redisGet_nf, redisHdel_nf, redisDel_nf,
              dbUpdateSessions_nf, hrf, hdf, hl, hu, markInactive,
              ha, Bool.not_eq_true, if_false, Bool.false_eq_true, ite_false]
            refine ⟨trivial, ⟨rfl, rfl⟩, trivial, trivial, trivial,
              aget_aremove_self _ _, ?_, ?_⟩
            · intro s hs
              exact aget_aremove_ne _ fun hcc => hs (sessKeyOf_inj hcc)
            · intro d' hd
              simp only [Option.some.injEq, RContent.str.injEq,
                SVal.sess.injEq] at hd
              subst hd
              simp [hasFieldL, lookupAliveL,
                aget_aremove_ne _ (Ne.symm (sessKeyOf_ne_userKeyOf sid d.userId)),
                hu, ha]

theorem redisGet_inv {k : String} {w : World} {res : Except Unit (Option SVal)}
    {w1 : World} (h : redisGet k w = (res, w1)) :
    w1.redis = w.redis ∧ w1.db = w.db ∧ w1.nowMs = w.nowMs ∧
    (∀ v, res = .ok (some v) → lookupAlive w k = some (.str v)) ∧
    (res = .ok none → lookupAlive w k = none) := by
  unfold redisGet takeRedisFault at h
  rcases hf : w.redisFaults with _ | ⟨b, rest⟩
  · rw [hf] at h
    simp only at h
    rcases hl : lookupAlive w k with _ | c
    · rw [hl] at h
      injection h with h1 h2
      subst h2
      refine ⟨rfl, rfl, rfl, ?_, fun _ => rfl⟩
      intro v hv
      rw [← h1] at hv
      simp at hv
    · rcases c with v | flds
      · rw [hl] at h
        injection h with h1 h2
        subst h2
        refine ⟨rfl, rfl, rfl, ?_, ?_⟩
        · intro v' hv
          rw [← h1] at hv
          simp only [Except.ok.injEq, Option.some.injEq] at hv
          rw [hv]
        · intro hv
          rw [← h1] at hv
          simp at hv
      · rw [hl] at h
        injection h with h1 h2
        subst h2
        refine ⟨rfl, rfl, rfl, ?_, ?_⟩
        · intro v' hv
          rw [← h1] at hv
          simp at hv
        · intro hv
          rw [← h1] at hv
          simp at hv
  · rw [hf] at h
    have hlookup : lookupAlive { w with redisFaults := rest } k = lookupAlive w k := rfl
    cases b
    · simp only at h
      rw [hlookup] at h
      rcases hl : lookupAlive w k with _ | c
      · rw [hl] at h
        injection h with h1 h2
        subst h2
        refine ⟨rfl, rfl, rfl, ?_, fun _ => rfl⟩
        intro v hv
        rw [← h1] at hv
        simp at hv
      · rcases c with v | flds
        · rw [hl] at h
          injection h with h1 h2
          subst h2
          refine ⟨rfl, rfl, rfl, ?_, ?_⟩
          · intro v' hv
            rw [← h1] at hv
            simp only [Except.ok.injEq, Option.some.injEq] at hv
            rw [hv]
          · intro hv
            rw [← h1] at hv
            simp at hv
        · rw [hl] at h
          injection h with h1 h2
          subst h2
          refine ⟨rfl, rfl, rfl, ?_, ?_⟩
          · intro v' hv
            rw [← h1] at hv
            simp at hv
          · intro hv
            rw [← h1] at hv
            simp at hv
    · simp only at h
      injection h with h1 h2
      subst h2
      refine ⟨rfl, rfl, rfl, ?_, ?_⟩
      · intro v hv
        rw [← h1] at hv
        simp at hv
      · intro hv
        rw [← h1] at hv
        simp at hv

theorem dbFindActiveSessionWithUser_inv {sid : String} {w : World}
    {res : Except Unit (Option (DbSession × DbUser))} {w1 : World}
    (h : dbFindActiveSessionWithUser sid w = (res, w1)) :
    w1.redis = w.redis ∧ w1.db = w.db ∧ w1.nowMs = w.nowMs ∧
    (∀ r u, res = .ok (some (r, u)) →
      findActiveSession w.db.sessions sid = some r ∧
      findUser w.db.users r.userId = some u) := by
  unfold dbFindActiveSessionWithUser takeDbFault at h
  rcases hf : w.dbFaults with _ | ⟨b, rest⟩ <;> rw [hf] at h
  · rcases hs : findActiveSession w.db.sessions sid with _ | r
    · simp only [hs, Prod.mk.injEq] at h
      obtain ⟨h1, h2⟩ := h
      subst h2
      refine ⟨rfl, rfl, rfl, ?_⟩
      intro r u hv
      rw [← h1] at hv
      simp at hv
    · rcases hu : findUser w.db.users r.userId with _ | u
      · simp only [hs, hu, Prod.mk.injEq] at h
        obtain ⟨h1, h2⟩ := h
        subst h2
        refine ⟨rfl, rfl, rfl, ?_⟩
        intro r' u' hv
        rw [← h1] at hv
        simp at hv
      · simp only [hs, hu, Prod.mk.injEq] at h
        obtain ⟨h1, h2⟩ := h
        subst h2
        refine ⟨rfl, rfl, rfl, ?_⟩
        intro r' u' hv
        rw [← h1] at hv
        simp only [Except.ok.injEq, Option.some.injEq, Prod.mk.injEq] at hv
        obtain ⟨hr, hu'⟩ := hv
        subst hr
        subst hu'
        exact ⟨rfl, hu⟩
  · cases b
    · rcases hs : findActiveSession w.db.sessions sid with _ | r
      · simp only [hs, Prod.mk.injEq] at h
        obtain ⟨h1, h2⟩ := h
        subst h2
        refine ⟨rfl, rfl, rfl, ?_⟩
        intro r u hv
        rw [← h1] at hv
        simp at hv
      · rcases hu : findUser w.db.users r.userId with _ | u
        · simp only [hs, hu, Prod.mk.injEq] at h
          obtain ⟨h1, h2⟩ := h
          subst h2
          refine ⟨rfl, rfl, rfl, ?_⟩
          intro r' u' hv
          rw [← h1] at hv
          simp at hv
        · simp only [hs, hu, Prod.mk.injEq] at h
          obtain ⟨h1, h2⟩ := h
          subst h2
          refine ⟨rfl, rfl, rfl, ?_⟩
          intro r' u' hv
          rw [← h1] at hv
          simp only [Except.ok.injEq, Option.some.injEq, Prod.mk.injEq] at hv
          obtain ⟨hr, hu'⟩ := hv
          subst hr
          subst hu'
          exact ⟨rfl, hu⟩
    · simp only [Prod.mk.injEq] at h
      obtain ⟨h1, h2⟩ := h
      subst h2
      refine ⟨rfl, rfl, rfl, ?_⟩
      intro r u hv
      rw [← h1] at hv
      simp at hv

theorem redisSet_inv {k : String} {v : SVal} {t : Nat} {w : World}
    {res : Except Unit Unit} {w1 : World} (h : redisSet k v t w = (res, w1)) :
    w1.nowMs = w.nowMs ∧ w1.db = w.db ∧
    (res = .ok () →
      w1.redis =
        aset w.redis k ⟨.str v, if t = 0 then none else some (w.nowMs + t * 1000)⟩) := by
  unfold redisSet takeRedisFault at h
  rcases hf : w.redisFaults with _ | ⟨b, rest⟩ <;> rw [hf] at h
  · simp only at h
    injection h with h1 h2
    subst h2
    exact ⟨rfl, rfl, fun _ => rfl⟩
  · cases b
    · simp only at h
      injection h with h1 h2
      subst h2
      exact ⟨rfl, rfl, fun _ => rfl⟩
    · simp only at h
      injection h with h1 h2
      subst h2
      refine ⟨rfl, rfl, ?_⟩
      intro hv
      rw [← h1] at hv
      simp at hv

theorem validateSession_sound {sid : String} {w : World} {d : SessionData}
    {w' : World} (h : validateSession sid w = (.ok (some d), w')) :
    ¬ (d.expiresAt < w.nowMs) ∧
    lookupAliveL w.nowMs w'.redis (sessKeyOf sid) = some (.str (.sess d)) ∧
    (lookupAlive w (sessKeyOf sid) = some (.str (.sess d)) ∨
     (lookupAlive w (sessKeyOf sid) = none ∧
      ∃ r u, findActiveSession w.db.sessions sid = some r ∧
        findUser w.db.users r.userId = some u ∧ d = recoveryRecord r u)) := by
  unfold validateSession at h
  rcases hg : redisGet (sessKeyOf sid) w with ⟨res1, w1⟩
  rw [hg] at h
  obtain ⟨hgr, hgd, hgn, hgsome, hgnone⟩ := redisGet_inv hg
  match res1 with
  | .error e => simp at h
  | .ok (some (.raw s)) =>
    simp only [] at h
    rcases hi : invalidateSession sid w1 with ⟨ri, wi⟩
    rw [hi] at h
    match ri with
    | .error e => simp at h
    | .ok u => simp at h
  | .ok (some (.sess d0)) =>
    simp only [] at h
    by_cases hexp : d0.expiresAt < w1.nowMs
    · rw [if_pos hexp] at h
      rcases hi : invalidateSession sid w1 with ⟨ri, wi⟩
      rw [hi] at h
      match ri with
      | .ok u => simp at h
      | .error e =>
        simp only [] at h
        rcases hi2 : invalidateSession sid wi with ⟨ri2, wi2⟩
        rw [hi2] at h
        match ri2 with
        | .error e2 => simp at h
        | .ok u2 => simp at h
    · rw [if_neg hexp] at h
      simp only [Prod.mk.injEq, Except.ok.injEq, Option.some.injEq] at h
      obtain ⟨h1, h2⟩ := h
      subst h1
      subst h2
      rw [hgn] at hexp
      have hl := hgsome _ rfl
      refine ⟨hexp, ?_, Or.inl hl⟩
      rw [hgr]
      exact hl
  | .ok none =>
    simp only [] at h
    rcases hdb : dbFindActiveSessionWithUser sid w1 with ⟨res2, w2⟩
    rw [hdb] at h
    obtain ⟨hdr, hdd, hdn, hdsome⟩ := dbFindActiveSessionWithUser_inv hdb
    match res2 with
    | .error e => simp at h
    | .ok none => simp at h
    | .ok (some (r, u)) =>
      simp only [] at h
      by_cases hexp : r.expiresAt < w2.nowMs
      · rw [if_pos hexp] at h
        simp at h
      · rw [if_neg hexp] at h
        by_cases httl : 0 < (r.expiresAt - w2.nowMs) / 1000
        · rw [if_pos httl] at h
          rcases hset : redisSet (sessKeyOf sid)
              (.sess (recoveryRecord r u)) ((r.expiresAt - w2.nowMs) / 1000) w2
            with ⟨res3, w3⟩
          rw [show redisSet (sessKeyOf sid)
              (SVal.sess
                { userId := r.userId, email := u.email, role := u.role,
                  jwtToken := r.token, createdAt := r.createdAt,
                  expiresAt := r.expiresAt, ipAddress := none, userAgent := none })
              ((r.expiresAt - w2.nowMs) / 1000) w2 = (res3, w3) from hset] at h
          obtain ⟨hsn, hsd, hsredis⟩ := redisSet_inv hset
          match res3 with
          | .error e => simp at h
          | .ok u3 =>
            simp only [Prod.mk.injEq, Except.ok.injEq, Option.some.injEq] at h
            obtain ⟨h1, h2⟩ := h
            subst h2
            have hd : d = recoveryRecord r u := h1.symm
            subst hd
            obtain ⟨hfind, hfu⟩ := hdsome r u rfl
            rw [hgd] at hfind hfu
            have hnw : w2.nowMs = w.nowMs := by rw [hdn, hgn]
            refine ⟨?_, ?_, Or.inr ⟨hgnone rfl, r, u, hfind, hfu, rfl⟩⟩
            · simp only [recoveryRecord]
              rw [← hnw]
              exact hexp
            · rw [hsredis rfl]
              have httl0 : (r.expiresAt - w2.nowMs) / 1000 ≠ 0 :=
                Nat.pos_iff_ne_zero.mp httl
              have halive : w.nowMs < w2.nowMs + (r.expiresAt - w2.nowMs) / 1000 * 1000 := by
                have hp : 0 < (r.expiresAt - w2.nowMs) / 1000 * 1000 :=
                  Nat.mul_pos httl (by norm_num)
                omega
              simp [lookupAliveL, aget_aset_self, if_neg httl0, aliveAt, halive,
                recoveryRecord]
        · rw [if_neg httl] at h
          simp at h

theorem redisHset_inv {k f v : String} {w : World} {res : Except Unit Unit}
    {w1 : World} (h : redisHset k f v w = (res, w1)) :
    w1.nowMs = w.nowMs ∧ w1.db = w.db ∧ w1.dbFaults = w.dbFaults ∧
    (w.redisFaults = [] → w1.redisFaults = []) ∧
    (∀ k', k' ≠ k → aget w1.redis k' = aget w.redis k') := by
  unfold redisHset takeRedisFault at h
  rcases hf : w.redisFaults with _ | ⟨b, rest⟩ <;> rw [hf] at h <;>
    simp only [] at h
  · rcases ha : aget w.redis k with _ | e
    · rw [ha] at h
      injection h with h1 h2
      subst h2
      exact ⟨rfl, rfl, rfl, fun _ => hf, fun k' hk => aget_aset_ne _ _ hk⟩
    · rw [ha] at h
      by_cases hal : aliveAt w.nowMs e.expireAtMs
      · rcases hc : e.content with v' | flds
        · simp only [hal, hc, if_true] at h
          injection h with h1 h2
          subst h2
          exact ⟨rfl, rfl, rfl, fun _ => hf, fun k' hk => rfl⟩
        · simp only [hal, hc, if_true] at h
          injection h with h1 h2
          subst h2
          exact ⟨rfl, rfl, rfl, fun _ => hf, fun k' hk => aget_aset_ne _ _ hk⟩
      · simp only [hal, if_false] at h
        injection h with h1 h2
        subst h2
        exact ⟨rfl, rfl, rfl, fun _ => hf, fun k' hk => aget_aset_ne _ _ hk⟩
  · cases b
    · simp only [] at h
      rcases ha : aget w.redis k with _ | e
      · rw [ha] at h
        injection h with h1 h2
        subst h2
        exact ⟨rfl, rfl, rfl, fun hc => absurd hc (by simp),
          fun k' hk => aget_aset_ne _ _ hk⟩
      · rw [ha] at h
        by_cases hal : aliveAt w.nowMs e.expireAtMs
        · rcases hc : e.content with v' | flds
          · simp only [hal, hc, if_true] at h
            injection h with h1 h2
            subst h2
            exact ⟨rfl, rfl, rfl, fun hc => absurd hc (by simp), fun k' hk => rfl⟩
          · simp only [hal, hc, if_true] at h
            injection h with h1 h2
            subst h2
            exact ⟨rfl, rfl, rfl, fun hc => absurd hc (by simp),
              fun k' hk => aget_aset_ne _ _ hk⟩
        · simp only [hal, if_false] at h
          injection h with h1 h2
          subst h2
          exact ⟨rfl, rfl, rfl, fun hc => absurd hc (by simp),
            fun k' hk => aget_aset_ne _ _ hk⟩
    · simp only [] at h
      injection h with h1 h2
      subst h2
      exact ⟨rfl, rfl, rfl, fun hc => absurd hc (by simp), fun k' hk => rfl⟩

theorem redisExpire_inv {k : String} {t : Nat} {w : World}
    {res : Except Unit Bool} {w1 : World} (h : redisExpire k t w = (res, w1)) :
    w1.nowMs = w.nowMs ∧ w1.db = w.db ∧ w1.dbFaults = w.dbFaults ∧
    (w.redisFaults = [] → w1.redisFaults = []) ∧
    (∀ k', k' ≠ k → aget w1.redis k' = aget w.redis k') := by
  unfold redisExpire takeRedisFault at h
  rcases hf : w.redisFaults with _ | ⟨b, rest⟩ <;> rw [hf] at h <;>
    simp only [] at h
  · rcases ha : aget w.redis k with _ | e
    · rw [ha] at h
      injection h with h1 h2
      subst h2
      exact ⟨rfl, rfl, rfl, fun _ => hf, fun k' hk => rfl⟩
    · rw [ha] at h
      by_cases hal : aliveAt w.nowMs e.expireAtMs
      · simp only [hal, if_true] at h
        injection h with h1 h2
        subst h2
        exact ⟨rfl, rfl, rfl, fun _ => hf, fun k' hk => aget_aset_ne _ _ hk⟩
      · simp only [hal, if_false] at h
        injection h with h1 h2
        subst h2
        exact ⟨rfl, rfl, rfl, fun _ => hf, fun k' hk => rfl⟩
  · cases b
    · simp only [] at h
      rcases ha : aget w.redis k with _ | e
      · rw [ha] at h
        injection h with h1 h2
        subst h2
        exact ⟨rfl, rfl, rfl, fun hc => absurd hc (by simp), fun k' hk => rfl⟩
      · rw [ha] at h
        by_cases hal : aliveAt w.nowMs e.expireAtMs
        · simp only [hal, if_true] at h
          injection h with h1 h2
          subst h2
          exact ⟨rfl, rfl, rfl, fun hc => absurd hc (by simp),
            fun k' hk => aget_aset_ne _ _ hk⟩
        · simp only [hal, if_false] at h
          injection h with h1 h2
          subst h2
          exact ⟨rfl, rfl, rfl, fun hc => absurd hc (by simp), fun k' hk => rfl⟩
    · simp only [] at h
      injection h with h1 h2
      subst h2
      exact ⟨rfl, rfl, rfl, fun hc => absurd hc (by simp), fun k' hk => rfl⟩

theorem dbCreateSession_inv {s : DbSession} {w : World} {res : Except Unit Unit}
    {w1 : World} (h : dbCreateSession s w = (res, w1)) :
    w1.redis = w.redis ∧ w1.nowMs = w.nowMs ∧
    w1.redisFaults = w.redisFaults ∧ w1.db.users = w.db.users ∧
    (w.dbFaults = [] → w1.dbFaults = []) ∧
    (w.dbFaults = [true] → w1.db = w.db ∧ w1.dbFaults = []) := by
  unfold dbCreateSession takeDbFault at h
  rcases hf : w.dbFaults with _ | ⟨b, rest⟩ <;> rw [hf] at h <;>
    simp only [] at h
  · by_cases hdup : w.db.sessions.any (fun r => r.id == s.id)
    · simp only [hdup, if_true] at h
      injection h with h1 h2
      subst h2
      exact ⟨rfl, rfl, rfl, rfl, fun _ => hf, fun hc => absurd hc (by simp)⟩
    · simp only [hdup, if_false] at h
      injection h with h1 h2
      subst h2
      exact ⟨rfl, rfl, rfl, rfl, fun _ => hf, fun hc => absurd hc (by simp)⟩
  · cases b
    · simp only [] at h
      by_cases hdup : w.db.sessions.any (fun r => r.id == s.id)
      · simp only [hdup, if_true] at h
        injection h with h1 h2
        subst h2
        exact ⟨rfl, rfl, rfl, rfl, fun hc => absurd hc (by simp),
          fun hc => absurd hc (by simp)⟩
      · simp only [hdup, if_false] at h
        injection h with h1 h2
        subst h2
        exact ⟨rfl, rfl, rfl, rfl, fun hc => absurd hc (by simp),
          fun hc => absurd hc (by simp)⟩
    · simp only [] at h
      injection h with h1 h2
      subst h2
      refine ⟨rfl, rfl, rfl, rfl, fun hc => absurd hc (by simp), fun hc => ?_⟩
      injection hc with hb hrest
      exact ⟨rfl, hrest⟩

theorem validateSession_hit {sid : String} {w : World} {d : SessionData}
    (hrf : w.redisFaults = [])
    (hl : lookupAlive w (sessKeyOf sid) = some (.str (.sess d)))
    (hx : ¬ d.expiresAt < w.nowMs) :
    validateSession sid w = (.ok (some d), w) := by
  simp only [validateSession, redisGet_nf hrf, hl, if_neg hx]

theorem validateSession_selfheal {sid : String} {w : World} {v : SVal}
    (hw : WNF w) (hl : lookupAlive w (sessKeyOf sid) = some (.str v))
    (hbad : ∀ d, v = .sess d → d.expiresAt < w.nowMs) :
    ∃ w', validateSession sid w = (.ok none, w') ∧ WNF w' ∧
      w'.nowMs = w.nowMs ∧ w'.db.users = w.db.users ∧
      w'.db.sessions = markInactive sid w.db.sessions ∧
      aget w'.redis (sessKeyOf sid) = none ∧
      (∀ s, s ≠ sid → aget w'.redis (sessKeyOf s) = aget w.redis (sessKeyOf s)) := by
  have hstr : ∀ flds, lookupAlive w (sessKeyOf sid) ≠ some (.hash flds) := by
    intro flds hc
    rw [hl] at hc
    exact absurd hc (by simp)
  obtain ⟨hok, hwnf, hnow, husers, hsess, hkey, hframe, _⟩ :=
    invalidateSession_char hw hstr
  rcases hrr : invalidateSession sid w with ⟨ri, wi⟩
  rw [hrr] at hok hwnf hnow husers hsess hkey hframe
  simp only at hok hwnf hnow husers hsess hkey hframe
  subst hok
  refine ⟨wi, ?_, hwnf, hnow, husers, hsess, hkey, hframe⟩
  cases v with
  | raw s => simp only [validateSession, redisGet_nf hw.1, hl, hrr]
  | sess d =>
    have hexp := hbad d rfl
    simp only [validateSession, redisGet_nf hw.1, hl, if_pos hexp, hrr]

theorem validateSession_after_invalidate {sid : String} {w w1 : World}
    (hw : WNF w) (hrun : invalidateSession sid w = (.ok (), w1)) :
    validateSession sid w1 = (.ok none, w1) := by
  have hstr : ∀ flds, lookupAlive w (sessKeyOf sid) ≠ some (.hash flds) := by
    intro flds hc
    have hbad : invalidateSession sid w = (.error (), w) := by
      simp only [invalidateSession, redisGet_nf hw.1, hc]
    rw [hrun] at hbad
    simp at hbad
  obtain ⟨hok, hwnf, hnow, husers, hsess, hkey, hframe, _⟩ :=
    invalidateSession_char hw hstr
  have h2 : (invalidateSession sid w).2 = w1 := by rw [hrun]
  rw [h2] at hwnf hsess hkey
  have hlook : lookupAlive w1 (sessKeyOf sid) = none := by
    simp [lookupAlive, lookupAliveL, hkey]
  have hfind : findActiveSession w1.db.sessions sid = none := by
    rw [hsess]
    exact findActiveSession_inactive_map _ _
  simp only [validateSession, redisGet_nf hwnf.1, hlook,
    dbFindActiveSessionWithUser_nf hwnf.2, hfind]

theorem aliveAt_none (now : Nat) : aliveAt now none = true := rfl

theorem createSession_char {w : World} (ttl : Nat) (user : UserResponseDto)
    (tok : Token) (ip ua : Option String) (sid : String)
    (hrf : w.redisFaults = [])
    (hty : ∀ e, aget w.redis (userKeyOf user.id) = some e →
      aliveAt w.nowMs e.expireAtMs = true → ∀ v, e.content ≠ .str v) :
    ∃ w', createSession ttl user tok ip ua sid w = (.ok sid, w') ∧
      w'.nowMs = w.nowMs ∧ w'.redisFaults = [] ∧ w'.db.users = w.db.users ∧
      lookupAlive w' (sessKeyOf sid) =
        some (.str (.sess (newSessionData ttl user tok ip ua w.nowMs))) ∧
      (w.dbFaults = [true] → w'.db = w.db ∧ w'.dbFaults = []) := by
  have hne : ∀ (l : List (String × REntry)) (E : REntry),
      aget (aset l (sessKeyOf sid) E) (userKeyOf user.id) =
        aget l (userKeyOf user.id) :=
    fun l E => aget_aset_ne l E (Ne.symm (sessKeyOf_ne_userKeyOf sid user.id))
  have hne' : ∀ (l : List (String × REntry)) (E : REntry),
      aget (aset l (userKeyOf user.id) E) (sessKeyOf sid) =
        aget l (sessKeyOf sid) :=
    fun l E => aget_aset_ne l E (sessKeyOf_ne_userKeyOf sid user.id)
  have halive : aliveAt w.nowMs
      (if ttl = 0 then none else some (w.nowMs + ttl * 1000)) = true := by
    by_cases h0 : ttl = 0
    · simp [h0, aliveAt]
    · have : 0 < ttl * 1000 := Nat.mul_pos (Nat.pos_of_ne_zero h0) (by norm_num)
      simp [h0, aliveAt]
      omega
  rcases hu : aget w.redis (userKeyOf user.id) with _ | e
  · -- no per-user index entry yet: hset creates it
    rcases hc : dbCreateSession
        { id := sid, userId := user.id, token := tok,
          expiresAt := w.nowMs + ttl * 1000, createdAt := w.nowMs,
          isActive := true }
        ⟨aset (aset (aset w.redis (sessKeyOf sid)
            ⟨.str (.sess ⟨user.id, user.email, user.role, tok, w.nowMs, w.nowMs + ttl * 1000, ip, ua⟩),
              if ttl = 0 then none else some (w.nowMs + ttl * 1000)⟩)
          (userKeyOf user.id) ⟨.hash [(sid, sessKeyOf sid)], none⟩)
          (userKeyOf user.id)
          ⟨.hash [(sid, sessKeyOf sid)], some (w.nowMs + ttl * 1000)⟩,
          w.db, w.nowMs, [], w.dbFaults⟩
      with ⟨r4, w4⟩
    obtain ⟨hredis4, hnow4, hrf4, husers4, hdfnil, hdf4⟩ := dbCreateSession_inv hc
    refine ⟨w4, ?_, ?_, ?_, ?_, ?_, ?_⟩
    · simp only [createSession, redisSet_nf, redisHset_nf, redisExpire_nf,
        hrf, hne, hu, aget_aset_self]
      simp only [aliveAt, if_true]
      rw [hc]
      cases r4 <;> rfl
    · exact hnow4
    · rw [hrf4]
    · exact husers4
    · simp only [] at hnow4
      rw [lookupAlive, lookupAliveL, hredis4, hne', hne', aget_aset_self, hnow4]
      simp only [halive, if_true, newSessionData]
    · exact hdf4
  · by_cases hal : aliveAt w.nowMs e.expireAtMs
    · rcases hcont : e.content with v' | flds
      · exact absurd hcont (hty e hu hal v')
      · -- live hash: hset adds the field, expire refreshes the ttl
        rcases hc : dbCreateSession
            { id := sid, userId := user.id, token := tok,
              expiresAt := w.nowMs + ttl * 1000, createdAt := w.nowMs,
              isActive := true }
            ⟨aset (aset (aset w.redis (sessKeyOf sid)
                ⟨.str (.sess ⟨user.id, user.email, user.role, tok, w.nowMs, w.nowMs + ttl * 1000, ip, ua⟩),
                  if ttl = 0 then none else some (w.nowMs + ttl * 1000)⟩)
              (userKeyOf user.id) ⟨.hash (fset flds sid (sessKeyOf sid)), e.expireAtMs⟩)
              (userKeyOf user.id)
              ⟨.hash (fset flds sid (sessKeyOf sid)), some (w.nowMs + ttl * 1000)⟩,
              w.db, w.nowMs, [], w.dbFaults⟩
          with ⟨r4, w4⟩
        obtain ⟨hredis4, hnow4, hrf4, husers4, hdfnil, hdf4⟩ := dbCreateSession_inv hc
        refine ⟨w4, ?_, ?_, ?_, ?_, ?_, ?_⟩
        · simp only [createSession, redisSet_nf, redisHset_nf,
            hrf, hne, hu, hal, hcont, aget_aset_self]
          simp only [redisExpire_nf, aget_aset_self, hal, if_true]
          rw [hc]
          cases r4 <;> rfl
        · exact hnow4
        · rw [hrf4]
        · exact husers4
        · simp only [] at hnow4
          rw [lookupAlive, lookupAliveL, hredis4, hne', hne', aget_aset_self, hnow4]
          simp only [halive, if_true, newSessionData]
        · exact hdf4
    · -- lapsed index entry: hset replaces it with a fresh hash
      rcases hc : dbCreateSession
          { id := sid, userId := user.id, token := tok,
            expiresAt := w.nowMs + ttl * 1000, createdAt := w.nowMs,
            isActive := true }
          ⟨aset (aset (aset w.redis (sessKeyOf sid)
              ⟨.str (.sess ⟨user.id, user.email, user.role, tok, w.nowMs, w.nowMs + ttl * 1000, ip, ua⟩),
                if ttl = 0 then none else some (w.nowMs + ttl * 1000)⟩)
            (userKeyOf user.id) ⟨.hash [(sid, sessKeyOf sid)], none⟩)
            (userKeyOf user.id)
            ⟨.hash [(sid, sessKeyOf sid)], some (w.nowMs + ttl * 1000)⟩,
            w.db, w.nowMs, [], w.dbFaults⟩
        with ⟨r4, w4⟩
      obtain ⟨hredis4, hnow4, hrf4, husers4, hdfnil, hdf4⟩ := dbCreateSession_inv hc
      refine ⟨w4, ?_, ?_, ?_, ?_, ?_, ?_⟩
      · rw [Bool.not_eq_true] at hal
        simp only [createSession, redisSet_nf, redisHset_nf, redisExpire_nf,
          hrf, hne, hu, hal, aget_aset_self, Bool.false_eq_true, if_false,
          aliveAt_none, if_true]
        rw [hc]
        cases r4 <;> rfl
      · exact hnow4
      · rw [hrf4]
      · exact husers4
      · simp only [] at hnow4
        rw [lookupAlive, lookupAliveL, hredis4, hne', hne', aget_aset_self, hnow4]
        simp only [halive, if_true, newSessionData]
      · exact hdf4

theorem createSession_typeerr {w : World} {ttl : Nat} {user : UserResponseDto}
    {tok : Token} {ip ua : Option String} {sid : String} {e : REntry} {v : SVal}
    (hrf : w.redisFaults = [])
    (hu : aget w.redis (userKeyOf user.id) = some e)
    (hal : aliveAt w.nowMs e.expireAtMs = true) (hv : e.content = .str v) :
    (createSession ttl user tok ip ua sid w).1 = .error () := by
  have hne : ∀ (l : List (String × REntry)) (E : REntry),
      aget (aset l (sessKeyOf sid) E) (userKeyOf user.id) =
        aget l (userKeyOf user.id) :=
    fun l E => aget_aset_ne l E (Ne.symm (sessKeyOf_ne_userKeyOf sid user.id))
  simp only [createSession, redisSet_nf, redisHset_nf, hrf, hne, hu, hal, hv,
    if_true]

/-- C2: a session id returned by createSession validates immediately, with the
owner's user id. -/
theorem thm_C2 (ttl : Nat) (user : UserResponseDto) (tok : Token)
    (ip ua : Option String) (sid rsid : String) (w w' : World)
    (hrf : w.redisFaults = [])
    (hrun : createSession ttl user tok ip ua sid w = (.ok rsid, w')) :
    rsid = sid ∧
    ∃ d, validateSession sid w' = (.ok (some d), w') ∧ d.userId = user.id := by
  have hty : ∀ e, aget w.redis (userKeyOf user.id) = some e →
      aliveAt w.nowMs e.expireAtMs = true → ∀ v, e.content ≠ .str v := by
    intro e he hal v hv
    have herr := @createSession_typeerr w ttl user tok ip ua sid e v hrf he hal hv
    rw [hrun] at herr
    simp at herr
  obtain ⟨wc, hrunc, hnow, hrfc, husers, hlook, hdbf⟩ :=
    createSession_char ttl user tok ip ua sid hrf hty
  rw [hrun] at hrunc
  injection hrunc with h1 h2
  injection h1 with h1
  subst h1
  subst h2
  refine ⟨rfl, newSessionData ttl user tok ip ua w.nowMs, ?_, rfl⟩
  have hx : ¬ (newSessionData ttl user tok ip ua w.nowMs).expiresAt < w'.nowMs := by
    rw [hnow]
    simp only [newSessionData]
    omega
  exact validateSession_hit hrfc hlook hx

theorem thm_C2_witness :
    exWorld.redisFaults = [] ∧
    createSession 60 exUser exTok none none "s1" exWorld =
      (.ok "s1", (createSession 60 exUser exTok none none "s1" exWorld).2) ∧
    ("s1" = "s1" ∧
      ∃ d, validateSession "s1" (createSession 60 exUser exTok none none "s1" exWorld).2 =
          (.ok (some d), (createSession 60 exUser exTok none none "s1" exWorld).2) ∧
        d.userId = exUser.id) :=
  ⟨rfl, rfl,
    thm_C2 60 exUser exTok none none "s1" "s1" exWorld
      (createSession 60 exUser exTok none none "s1" exWorld).2 rfl rfl⟩

/-- C4: a durable-store failure during createSession is swallowed (the call
still returns the new session id and the durable store is untouched), while a
failure of any of the three fast-store writes (session set, index hset, index
expire) propagates and fails the call. -/
theorem thm_C4 :
    (∀ (ttl : Nat) (user : UserResponseDto) (tok : Token) (ip ua : Option String)
       (sid : String) (w : World), w.redisFaults = [] → w.dbFaults = [true] →
       (∀ e, aget w.redis (userKeyOf user.id) = some e →
         aliveAt w.nowMs e.expireAtMs = true → ∀ v, e.content ≠ .str v) →
       ∃ w', createSession ttl user tok ip ua sid w = (.ok sid, w') ∧
         w'.db = w.db ∧ w'.dbFaults = []) ∧
    (∀ (ttl : Nat) (user : UserResponseDto) (tok : Token) (ip ua : Option String)
       (sid : String) (w : World), w.redisFaults = [true] →
       (createSession ttl user tok ip ua sid w).1 = .error ()) ∧
    (∀ (ttl : Nat) (user : UserResponseDto) (tok : Token) (ip ua : Option String)
       (sid : String) (w : World), w.redisFaults = [false, true] →
       (createSession ttl user tok ip ua sid w).1 = .error ()) ∧
    (∀ (ttl : Nat) (user : UserResponseDto) (tok : Token) (ip ua : Option String)
       (sid : String) (w : World), w.redisFaults = [false, false, true] →
       (createSession ttl user tok ip ua sid w).1 = .error ()) := by
  refine ⟨?_, ?_, ?_, ?_⟩
  · intro ttl user tok ip ua sid w hrf hdf hty
    obtain ⟨w', hrun, hnow, hrfc, husers, hlook, hdbf⟩ :=
      createSession_char ttl user tok ip ua sid hrf hty
    obtain ⟨hdb, hdf'⟩ := hdbf hdf
    exact ⟨w', hrun, hdb, hdf'⟩
  · intro ttl user tok ip ua sid w hrf
    simp [createSession, redisSet, takeRedisFault, hrf]
  · intro ttl user tok ip ua sid w hrf
    simp [createSession, redisSet, redisHset, takeRedisFault, hrf]
  · intro ttl user tok ip ua sid w hrf
    simp only [createSession, redisSet, redisHset, redisExpire, takeRedisFault, hrf]
    rcases hu : aget (aset w.redis (sessKeyOf sid)
        ⟨.str (.sess ⟨user.id, user.email, user.role, tok, w.nowMs,
          w.nowMs + ttl * 1000, ip, ua⟩),
          if ttl = 0 then none else some (w.nowMs + ttl * 1000)⟩)
        (userKeyOf user.id) with _ | e
    · simp [hu]
    · by_cases hal : aliveAt w.nowMs e.expireAtMs
      · rcases hcont : e.content with v' | flds
        · simp [hu, hal, hcont]
        · simp [hu, hal, hcont]
      · simp [hu, hal]

theorem thm_C4_witness :
    (exWorldDbFail.redisFaults = [] ∧ exWorldDbFail.dbFaults = [true] ∧
      ∃ w', createSession 60 exUser exTok none none "s1" exWorldDbFail =
          (.ok "s1", w') ∧ w'.db = exWorldDbFail.db ∧ w'.dbFaults = []) ∧
    (exWorldRf1.redisFaults = [true] ∧
      (createSession 60 exUser exTok none none "s1" exWorldRf1).1 = .error ()) ∧
    (exWorldRf2.redisFaults = [false, true] ∧
      (createSession 60 exUser exTok none none "s1" exWorldRf2).1 = .error ()) ∧
    (exWorldRf3.redisFaults = [false, false, true] ∧
      (createSession 60 exUser exTok none none "s1" exWorldRf3).1 = .error ()) :=
  ⟨⟨rfl, rfl,
    thm_C4.1 60 exUser exTok none none "s1" exWorldDbFail rfl rfl
      (by intro e he; simp [exWorldDbFail, exWorld, aget] at he)⟩,
   ⟨rfl, thm_C4.2.1 60 exUser exTok none none "s1" exWorldRf1 rfl⟩,
   ⟨rfl, thm_C4.2.2.1 60 exUser exTok none none "s1" exWorldRf2 rfl⟩,
   ⟨rfl, thm_C4.2.2.2 60 exUser exTok none none "s1" exWorldRf3 rfl⟩⟩

/-- C3 (amended): on a fast-store miss, validateSession consults the durable
store; an active record with at least one whole second to expiry is returned
and re-populates the fast store with TTL = floor(remaining ms / 1000) seconds;
a missing or inactive record, an expired record, or one with under one second
remaining yields absent with no fast-store write. -/
theorem thm_C3 :
    (∀ (sid : String) (w : World) (r : DbSession) (u : DbUser), WNF w →
      lookupAlive w (sessKeyOf sid) = none →
      findActiveSession w.db.sessions sid = some r →
      findUser w.db.users r.userId = some u →
      ¬ r.expiresAt < w.nowMs → 0 < (r.expiresAt - w.nowMs) / 1000 →
      validateSession sid w =
        (.ok (some (recoveryRecord r u)),
          { w with redis := aset w.redis (sessKeyOf sid) (recoveryEntry r u w.nowMs) })) ∧
    (∀ (sid : String) (w : World), WNF w →
      lookupAlive w (sessKeyOf sid) = none →
      findActiveSession w.db.sessions sid = none →
      validateSession sid w = (.ok none, w)) ∧
    (∀ (sid : String) (w : World) (r : DbSession) (u : DbUser), WNF w →
      lookupAlive w (sessKeyOf sid) = none →
      findActiveSession w.db.sessions sid = some r →
      findUser w.db.users r.userId = some u →
      r.expiresAt < w.nowMs →
      validateSession sid w = (.ok none, w)) ∧
    (∀ (sid : String) (w : World) (r : DbSession) (u : DbUser), WNF w →
      lookupAlive w (sessKeyOf sid) = none →
      findActiveSession w.db.sessions sid = some r →
      findUser w.db.users r.userId = some u →
      ¬ r.expiresAt < w.nowMs → (r.expiresAt - w.nowMs) / 1000 = 0 →
      validateSession sid w = (.ok none, w)) := by
  refine ⟨?_, ?_, ?_, ?_⟩
  · intro sid w r u hw hl hfind hfu hexp httl
    simp only [validateSession, redisGet_nf hw.1, hl,
      dbFindActiveSessionWithUser_nf hw.2, hfind, hfu, if_neg hexp,
      if_pos httl, redisSet_nf hw.1, if_neg (Nat.pos_iff_ne_zero.mp httl),
      recoveryRecord, recoveryEntry]
  · intro sid w hw hl hfind
    simp only [validateSession, redisGet_nf hw.1, hl,
      dbFindActiveSessionWithUser_nf hw.2, hfind]
  · intro sid w r u hw hl hfind hfu hexp
    simp only [validateSession, redisGet_nf hw.1, hl,
      dbFindActiveSessionWithUser_nf hw.2, hfind, hfu, if_pos hexp]
  · intro sid w r u hw hl hfind hfu hexp httl
    simp only [validateSession, redisGet_nf hw.1, hl,
      dbFindActiveSessionWithUser_nf hw.2, hfind, hfu, if_neg hexp, httl,
      if_neg (lt_irrefl 0)]

/-- C3, claim as stated is false: an active durable record whose expiry is in
the future (500 ms away) is NOT returned and nothing is written. -/
theorem thm_C3_counterexample :
    lookupAlive cexWorldC3 (sessKeyOf "s1") = none ∧
    findActiveSession cexWorldC3.db.sessions "s1" = some cexC3Row ∧
    cexC3Row.isActive = true ∧ cexWorldC3.nowMs < cexC3Row.expiresAt ∧
    validateSession "s1" cexWorldC3 = (.ok none, cexWorldC3) :=
  ⟨rfl, rfl, rfl, by decide, rfl⟩

theorem thm_C3_witness :
    WNF exWorldC3 ∧
    lookupAlive exWorldC3 (sessKeyOf "s1") = none ∧
    findActiveSession exWorldC3.db.sessions "s1" =
      some { cexC3Row with expiresAt := 6000 } ∧
    findUser exWorldC3.db.users "u1" = some exDbUser ∧
    ¬ (6000 : Nat) < 1000 ∧ 0 < ((6000 : Nat) - 1000) / 1000 ∧
    validateSession "s1" exWorldC3 =
      (.ok (some (recoveryRecord { cexC3Row with expiresAt := 6000 } exDbUser)),
        { exWorldC3 with redis := aset exWorldC3.redis (sessKeyOf "s1") (recoveryEntry { cexC3Row with expiresAt := 6000 } exDbUser 1000) }) :=
  ⟨⟨rfl, rfl⟩, rfl, rfl, rfl, by decide, by decide,
    thm_C3.1 "s1" exWorldC3 { cexC3Row with expiresAt := 6000 } exDbUser
      ⟨rfl, rfl⟩ rfl rfl rfl (by decide) (by decide)⟩

/-- C1: a record returned by validateSession is never expired and comes from a
successfully parsed fast-store payload or from an active durable record; a
session that was invalidated never validates afterwards; and an expired or
non-parseable fast-store entry makes validateSession delete the key and
return absent. -/
theorem thm_C1 :
    (∀ (sid : String) (w : World) (d : SessionData) (w' : World),
      validateSession sid w = (.ok (some d), w') →
      ¬ (d.expiresAt < w.nowMs) ∧
      lookupAliveL w.nowMs w'.redis (sessKeyOf sid) = some (.str (.sess d)) ∧
      (lookupAlive w (sessKeyOf sid) = some (.str (.sess d)) ∨
       (lookupAlive w (sessKeyOf sid) = none ∧
        ∃ r u, findActiveSession w.db.sessions sid = some r ∧
          findUser w.db.users r.userId = some u ∧ d = recoveryRecord r u))) ∧
    (∀ (sid : String) (w w1 : World), WNF w →
      invalidateSession sid w = (.ok (), w1) →
      validateSession sid w1 = (.ok none, w1)) ∧
    (∀ (sid : String) (w : World) (v : SVal), WNF w →
      lookupAlive w (sessKeyOf sid) = some (.str v) →
      (∀ d, v = .sess d → d.expiresAt < w.nowMs) →
      ∃ w', validateSession sid w = (.ok none, w') ∧
        aget w'.redis (sessKeyOf sid) = none) :=
  ⟨fun _ _ _ _ h => validateSession_sound h,
   fun _ _ _ hw h => validateSession_after_invalidate hw h,
   fun _ _ _ hw hl hbad => by
     obtain ⟨w', hrun, _, _, _, _, hkey, _⟩ := validateSession_selfheal hw hl hbad
     exact ⟨w', hrun, hkey⟩⟩

theorem thm_C1_witness :
    (validateSession "s1" exWorldC1 = (.ok (some exSess), exWorldC1) ∧
      (¬ (exSess.expiresAt < exWorldC1.nowMs) ∧
        lookupAliveL exWorldC1.nowMs exWorldC1.redis (sessKeyOf "s1") =
          some (.str (.sess exSess)) ∧
        (lookupAlive exWorldC1 (sessKeyOf "s1") = some (.str (.sess exSess)) ∨
         (lookupAlive exWorldC1 (sessKeyOf "s1") = none ∧
          ∃ r u, findActiveSession exWorldC1.db.sessions "s1" = some r ∧
            findUser exWorldC1.db.users r.userId = some u ∧
            exSess = recoveryRecord r u)))) ∧
    (WNF exWorldC1 ∧
      validateSession "s1" (invalidateSession "s1" exWorldC1).2 =
        (.ok none, (invalidateSession "s1" exWorldC1).2)) ∧
    (lookupAlive cexWorldCorrupt (sessKeyOf "s1") = some (.str (.raw "oops")) ∧
      ∃ w', validateSession "s1" cexWorldCorrupt = (.ok none, w') ∧
        aget w'.redis (sessKeyOf "s1") = none) :=
  ⟨⟨rfl, thm_C1.1 "s1" exWorldC1 exSess exWorldC1 rfl⟩,
   ⟨⟨rfl, rfl⟩,
    thm_C1.2.1 "s1" exWorldC1 (invalidateSession "s1" exWorldC1).2 ⟨rfl, rfl⟩ rfl⟩,
   ⟨rfl,
    thm_C1.2.2 "s1" cexWorldCorrupt (.raw "oops") ⟨rfl, rfl⟩ rfl
      (by intro d hd; simp at hd)⟩⟩

theorem validateSession_post {sid : String} {w : World} (hw : WNF w) :
    WNF (validateSession sid w).2 ∧ (validateSession sid w).2.nowMs = w.nowMs ∧
    (validateSession sid w).2.db.users = w.db.users := by
  obtain ⟨hrf, hdf⟩ := hw
  cases hl : lookupAlive w (sessKeyOf sid) with
  | none =>
    simp only [validateSession, redisGet_nf hrf, hl,
      dbFindActiveSessionWithUser_nf hdf]
    cases hfind : findActiveSession w.db.sessions sid with
    | none => exact ⟨⟨hrf, hdf⟩, rfl, rfl⟩
    | some r =>
      simp only []
      cases hfu : findUser w.db.users r.userId with
      | none => exact ⟨⟨hrf, hdf⟩, rfl, rfl⟩
      | some u =>
        simp only []
        by_cases hexp : r.expiresAt < w.nowMs
        · simp only [if_pos hexp]
          exact ⟨⟨hrf, hdf⟩, trivial, trivial⟩
        · simp only [if_neg hexp]
          by_cases httl : 0 < (r.expiresAt - w.nowMs) / 1000
          · simp only [if_pos httl, redisSet_nf hrf]
            exact ⟨⟨hrf, hdf⟩, trivial, trivial⟩
          · simp only [if_neg httl]
            exact ⟨⟨hrf, hdf⟩, trivial, trivial⟩
  | some c =>
    cases c with
    | hash flds =>
      simp only [validateSession, redisGet_nf hrf, hl]
      exact ⟨⟨hrf, hdf⟩, trivial, trivial⟩
    | str v =>
      have hstr : ∀ flds, lookupAlive w (sessKeyOf sid) ≠ some (.hash flds) := by
        intro flds hc
        rw [hl] at hc
        exact absurd hc (by simp)
      obtain ⟨hok, hwnf, hnow, husers, _, _, _, _⟩ :=
        invalidateSession_char ⟨hrf, hdf⟩ hstr
      rcases hrr : invalidateSession sid w with ⟨ri, wi⟩
      rw [hrr] at hok hwnf hnow husers
      simp only at hok hwnf hnow husers
      subst hok
      cases v with
      | raw s =>
        simp only [validateSession, redisGet_nf hrf, hl, hrr]
        exact ⟨hwnf, hnow, husers⟩
      | sess d =>
        by_cases hexp : d.expiresAt < w.nowMs
        · simp only [validateSession, redisGet_nf hrf, hl, if_pos hexp, hrr]
          exact ⟨hwnf, hnow, husers⟩
        · simp only [validateSession, redisGet_nf hrf, hl, if_neg hexp]
          exact ⟨⟨hrf, hdf⟩, trivial, trivial⟩

theorem redisExpire_ok {k : String} {t : Nat} {w : World}
    {res : Except Unit Bool} {w1 : World} (h : redisExpire k t w = (res, w1))
    (hrf : w.redisFaults = []) : ∃ b, res = .ok b := by
  rw [redisExpire_nf hrf] at h
  cases ha : aget w.redis k with
  | none =>
    rw [ha] at h
    injection h with h1 h2
    exact ⟨false, h1.symm⟩
  | some e =>
    rw [ha] at h
    by_cases hal : aliveAt w.nowMs e.expireAtMs
    · simp only [hal, if_true] at h
      injection h with h1 h2
      exact ⟨true, h1.symm⟩
    · simp only [hal, if_false] at h
      injection h with h1 h2
      exact ⟨false, h1.symm⟩

theorem refreshSession_valid {ttl : Nat} {sid : String} {w w1 : World}
    {d : SessionData} (hw : WNF w)
    (hval : validateSession sid w = (.ok (some d), w1)) :
    ∃ w2, refreshSession ttl sid w = (.ok true, w2) ∧ w2.nowMs = w.nowMs ∧
      lookupAliveL w.nowMs w2.redis (sessKeyOf sid) =
        some (.str (.sess { d with expiresAt := w.nowMs + ttl * 1000 })) ∧
      w2.db.sessions = w1.db.sessions.map
        (fun r => if r.id == sid then { r with expiresAt := w.nowMs + ttl * 1000 } else r) := by
  have hpost := @validateSession_post sid w hw
  rw [hval] at hpost
  simp only at hpost
  obtain ⟨hwnf1, hnow1, husers1⟩ := hpost
  unfold refreshSession
  rw [hval]
  simp only []
  rw [redisSet_nf hwnf1.1]
  simp only []
  rcases he : redisExpire (userKeyOf d.userId) ttl
      ⟨aset w1.redis (sessKeyOf sid)
        ⟨.str (.sess { d with expiresAt := w1.nowMs + ttl * 1000 }),
          if ttl = 0 then none else some (w1.nowMs + ttl * 1000)⟩,
        w1.db, w1.nowMs, w1.redisFaults, w1.dbFaults⟩
    with ⟨re, w3⟩
  obtain ⟨hn3, hd3, hdf3, hrf3, hframe3⟩ := redisExpire_inv he
  simp only at hn3 hd3 hdf3 hrf3
  obtain ⟨b, hb⟩ := redisExpire_ok he (by simp [hwnf1.1])
  subst hb
  simp only []
  have h3df : w3.dbFaults = [] := by
    rw [hdf3]
    exact hwnf1.2
  rw [dbUpdateSessions_nf h3df]
  refine ⟨_, rfl, ?_, ?_, ?_⟩
  · simp only [hn3, hnow1]
  · have hget : aget w3.redis (sessKeyOf sid) =
        some ⟨.str (.sess { d with expiresAt := w1.nowMs + ttl * 1000 }),
          if ttl = 0 then none else some (w1.nowMs + ttl * 1000)⟩ := by
      rw [hframe3 _ (sessKeyOf_ne_userKeyOf sid d.userId)]
      simp only []
      exact aget_aset_self _ _ _
    simp only [lookupAliveL, hget, hnow1]
    by_cases h0 : ttl = 0
    · simp [h0, aliveAt]
    · have hpos : 0 < ttl * 1000 :=
        Nat.mul_pos (Nat.pos_of_ne_zero h0) (by norm_num)
      simp [h0, aliveAt]
  · simp only [hd3, hnow1]

/-- C6 (amended): refreshSession on an invalid session returns false with no
mutation beyond validateSession's own self-healing; on a valid session it
returns true and sets the expiry (fast store and durable rows with that id) to
now + TTL, which extends the expiry whenever the previous one was earlier than
now + TTL, but equals it when refreshing at the very instant of creation. -/
theorem thm_C6 :
    (∀ (ttl : Nat) (sid : String) (w w1 : World),
      validateSession sid w = (.ok none, w1) →
      refreshSession ttl sid w = (.ok false, w1)) ∧
    (∀ (ttl : Nat) (sid : String) (w w1 : World) (d : SessionData), WNF w →
      validateSession sid w = (.ok (some d), w1) →
      ∃ w2, refreshSession ttl sid w = (.ok true, w2) ∧ w2.nowMs = w.nowMs ∧
        lookupAliveL w.nowMs w2.redis (sessKeyOf sid) =
          some (.str (.sess { d with expiresAt := w.nowMs + ttl * 1000 })) ∧
        w2.db.sessions = w1.db.sessions.map
          (fun r => if r.id == sid then { r with expiresAt := w.nowMs + ttl * 1000 } else r) ∧
        (d.expiresAt < w.nowMs + ttl * 1000 →
          d.expiresAt <
            ({ d with expiresAt := w.nowMs + ttl * 1000 } : SessionData).expiresAt)) := by
  constructor
  · intro ttl sid w w1 hval
    unfold refreshSession
    rw [hval]
  · intro ttl sid w w1 d hw hval
    obtain ⟨w2, hrun, hnow, hlook, hdb⟩ := refreshSession_valid hw hval
    exact ⟨w2, hrun, hnow, hlook, hdb, fun h => h⟩

/-- C6, claim as stated is false: refreshing a valid session at the same
millisecond it was created leaves the expiry equal to (not strictly greater
than) the previous expiry timestamp. -/
theorem thm_C6_counterexample :
    validateSession "s1" exWorldC1 = (.ok (some exSess), exWorldC1) ∧
    exSess.expiresAt = 5000 ∧ exWorldC1.nowMs + 4 * 1000 = 5000 ∧
    refreshSession 4 "s1" exWorldC1 = (.ok true, cexC6After) ∧
    lookupAliveL exWorldC1.nowMs cexC6After.redis (sessKeyOf "s1") =
      some (.str (.sess exSess)) ∧
    ¬ (5000 : Nat) > 5000 :=
  ⟨rfl, rfl, rfl, rfl, rfl, by decide⟩

theorem thm_C6_witness :
    (validateSession "s1" exWorld = (.ok none, exWorld) ∧
      refreshSession 9 "s1" exWorld = (.ok false, exWorld)) ∧
    (WNF exWorldC1 ∧
      validateSession "s1" exWorldC1 = (.ok (some exSess), exWorldC1) ∧
      ∃ w2, refreshSession 9 "s1" exWorldC1 = (.ok true, w2) ∧
        w2.nowMs = exWorldC1.nowMs ∧
        lookupAliveL exWorldC1.nowMs w2.redis (sessKeyOf "s1") =
          some (.str (.sess { exSess with expiresAt := exWorldC1.nowMs + 9 * 1000 })) ∧
        w2.db.sessions = exWorldC1.db.sessions.map
          (fun r => if r.id == "s1" then { r with expiresAt := exWorldC1.nowMs + 9 * 1000 } else r) ∧
        (exSess.expiresAt < exWorldC1.nowMs + 9 * 1000 →
          exSess.expiresAt <
            ({ exSess with expiresAt := exWorldC1.nowMs + 9 * 1000 } : SessionData).expiresAt)) :=
  ⟨⟨rfl, thm_C6.1 9 "s1" exWorld exWorld rfl⟩,
   ⟨⟨rfl, rfl⟩, rfl, thm_C6.2 9 "s1" exWorldC1 exWorldC1 exSess ⟨rfl, rfl⟩ rfl⟩⟩

theorem map_if_id {α : Type} (l : List α) (p : α → Bool) (f : α → α)
    (h : ∀ x ∈ l, p x = false) :
    l.map (fun x => if p x then f x else x) = l := by
  induction l with
  | nil => rfl
  | cons x rest ih =>
    have hx := h x (List.mem_cons_self x rest)
    simp only [List.map_cons, hx, if_false, Bool.false_eq_true]
    rw [ih fun y hy => h y (List.mem_cons_of_mem x hy)]

/-- C7 (amended): invalidateSession removes the fast-store record and, when
that record was present and parseable (yielding the owning user), the
membership in that user's index; the durable rows with that id are marked
inactive, never deleted; on an id with no fast-store entry and no durable row
the call is a complete no-op and not an error. -/
theorem thm_C7 :
    (∀ (sid : String) (w : World) (d : SessionData), WNF w →
      lookupAlive w (sessKeyOf sid) = some (.str (.sess d)) →
      ∃ w', invalidateSession sid w = (.ok (), w') ∧
        aget w'.redis (sessKeyOf sid) = none ∧
        hasFieldL w.nowMs w'.redis (userKeyOf d.userId) sid = false ∧
        w'.db.sessions = markInactive sid w.db.sessions ∧
        w'.db.users = w.db.users) ∧
    (∀ (sid : String) (w : World), WNF w →
      aget w.redis (sessKeyOf sid) = none →
      (∀ r ∈ w.db.sessions, (r.id == sid) = false) →
      invalidateSession sid w = (.ok (), w)) := by
  constructor
  · intro sid w d hw hl
    have hstr : ∀ flds, lookupAlive w (sessKeyOf sid) ≠ some (.hash flds) := by
      intro flds hc
      rw [hl] at hc
      exact absurd hc (by simp)
    obtain ⟨hok, hwnf, hnow, husers, hsess, hkey, hframe, hfield⟩ :=
      invalidateSession_char hw hstr
    rcases hrr : invalidateSession sid w with ⟨ri, wi⟩
    rw [hrr] at hok hwnf hnow husers hsess hkey hfield
    simp only at hok hwnf hnow husers hsess hkey hfield
    subst hok
    exact ⟨wi, rfl, hkey, hfield d hl, hsess, husers⟩
  · intro sid w hw hkey hdb
    have hl : lookupAlive w (sessKeyOf sid) = none := by
      simp [lookupAlive, lookupAliveL, hkey]
    have hrem : aremove w.redis (sessKeyOf sid) = w.redis :=
      aremove_of_aget_none _ _ hkey
    simp only [invalidateSession, redisGet_nf hw.1, hl, redisDel_nf hw.1,
      dbUpdateSessions_nf hw.2, hrem, map_if_id _ _ _ hdb]

/-- C7, claim as stated is false: when the fast-store record for s is absent
but the owning user's index still contains s (a stale member), invalidation
leaves the membership in place. -/
theorem thm_C7_counterexample :
    invalidateSession "s1" cexWorldC7 = (.ok (), cexWorldC7) ∧
    hasFieldL cexWorldC7.nowMs cexWorldC7.redis (userKeyOf "u1") "s1" = true :=
  ⟨rfl, rfl⟩

theorem thm_C7_witness :
    (WNF exWorldC1 ∧
      lookupAlive exWorldC1 (sessKeyOf "s1") = some (.str (.sess exSess)) ∧
      ∃ w', invalidateSession "s1" exWorldC1 = (.ok (), w') ∧
        aget w'.redis (sessKeyOf "s1") = none ∧
        hasFieldL exWorldC1.nowMs w'.redis (userKeyOf exSess.userId) "s1" = false ∧
        w'.db.sessions = markInactive "s1" exWorldC1.db.sessions ∧
        w'.db.users = exWorldC1.db.users) ∧
    (WNF exWorld ∧ aget exWorld.redis (sessKeyOf "s1") = none ∧
      invalidateSession "s1" exWorld = (.ok (), exWorld)) :=
  ⟨⟨⟨rfl, rfl⟩, rfl, thm_C7.1 "s1" exWorldC1 exSess ⟨rfl, rfl⟩ rfl⟩,
   ⟨⟨rfl, rfl⟩, rfl,
    thm_C7.2 "s1" exWorld ⟨rfl, rfl⟩ rfl (by intro r hr; simp [exWorld] at hr)⟩⟩

theorem vstCatch_no_user (sid : String) (w : World) (dto : UserResponseDto)
    (w' : World) : vstCatch sid w ≠ (.ok (some dto), w') := by
  intro h
  unfold vstCatch at h
  rcases hi : invalidateSession sid w with ⟨ri, wi⟩
  rw [hi] at h
  cases ri with
  | error e => simp only [] at h; simp at h
  | ok u => simp only [] at h; simp at h

/-- C5 (amended): validateSessionToken returns a user only when the session
resolves, its bound token verifies, and the freshly re-fetched user is
ACTIVE; when the session resolves but a later check fails, it returns absent
and invalidates the session; but when the session itself does not resolve,
it returns absent without invalidating anything. -/
theorem thm_C5 :
    (∀ (sid : String) (w : World) (dto : UserResponseDto) (w' : World),
      WNF w → validateSessionToken sid w = (.ok (some dto), w') →
      ∃ sd p u, validateSession sid w = (.ok (some sd), w') ∧
        sd.jwtToken = .signed p ∧ findUser w.db.users p.sub = some u ∧
        u.status = "ACTIVE" ∧ dto = toUserDto u) ∧
    (∀ (sid : String) (w w1 : World) (sd : SessionData),
      WNF w → validateSession sid w = (.ok (some sd), w1) →
      (∀ p, sd.jwtToken = .signed p →
        ∀ u, findUser w.db.users p.sub = some u → u.status ≠ "ACTIVE") →
      ∃ w2, validateSessionToken sid w = (.ok none, w2) ∧
        aget w2.redis (sessKeyOf sid) = none ∧
        w2.db.sessions = markInactive sid w1.db.sessions) ∧
    (∀ (sid : String) (w w1 : World),
      validateSession sid w = (.ok none, w1) →
      validateSessionToken sid w = (.ok none, w1)) := by
  refine ⟨?_, ?_, ?_⟩
  · intro sid w dto w' hw h
    have hpost := @validateSession_post sid w hw
    simp only [validateSessionToken] at h
    rcases hv : validateSession sid w with ⟨res, w1⟩
    rw [hv] at h hpost
    simp only at hpost
    obtain ⟨hw1, hnow1, husers1⟩ := hpost
    cases res with
    | error e => simp only [] at h; simp at h
    | ok o =>
      cases o with
      | none => simp only [] at h; simp at h
      | some sd =>
        simp only [] at h
        rcases htok : sd.jwtToken with p | s
        · rw [htok] at h
          simp only [jwtVerify] at h
          rw [dbFindUserById_nf hw1.2] at h
          rcases hfu : findUser w1.db.users p.sub with _ | u
          · rw [hfu] at h
            simp only [] at h
            rcases hi : invalidateSession sid w1 with ⟨ri, wi⟩
            rw [hi] at h
            cases ri with
            | error e => simp only [] at h; exact absurd h (vstCatch_no_user _ _ _ _)
            | ok u => simp only [] at h; simp at h
          · rw [hfu] at h
            simp only [] at h
            by_cases hst : u.status = "ACTIVE"
            · rw [if_neg (not_not_intro hst)] at h
              simp only [Prod.mk.injEq, Except.ok.injEq, Option.some.injEq] at h
              obtain ⟨hdto, hw'⟩ := h
              subst hw'
              rw [husers1] at hfu
              exact ⟨sd, p, u, rfl, htok, hfu, hst, hdto.symm⟩
            · rw [if_pos hst] at h
              rcases hi : invalidateSession sid w1 with ⟨ri, wi⟩
              rw [hi] at h
              cases ri with
              | error e => simp only [] at h; exact absurd h (vstCatch_no_user _ _ _ _)
              | ok v => simp only [] at h; simp at h
        · rw [htok] at h
          simp only [jwtVerify] at h
          exact absurd h (vstCatch_no_user _ _ _ _)
  · intro sid w w1 sd hw hv hfail
    have hpost := @validateSession_post sid w hw
    rw [hv] at hpost
    simp only at hpost
    obtain ⟨hw1, hnow1, husers1⟩ := hpost
    have hsound := validateSession_sound hv
    have hl1 : lookupAlive w1 (sessKeyOf sid) = some (.str (.sess sd)) := by
      unfold lookupAlive
      rw [hnow1]
      exact hsound.2.1
    have hstr : ∀ flds, lookupAlive w1 (sessKeyOf sid) ≠ some (.hash flds) := by
      intro flds hc
      rw [hl1] at hc
      exact absurd hc (by simp)
    obtain ⟨hok, hwnf2, hnow2, husers2, hsess2, hkey2, _, _⟩ :=
      invalidateSession_char hw1 hstr
    rcases hi : invalidateSession sid w1 with ⟨ri, wi⟩
    rw [hi] at hok hsess2 hkey2
    simp only at hok hsess2 hkey2
    subst hok
    refine ⟨wi, ?_, hkey2, hsess2⟩
    simp only [validateSessionToken]
    rw [hv]
    simp only []
    rcases htok : sd.jwtToken with p | s
    · simp only [jwtVerify]
      rw [dbFindUserById_nf hw1.2]
      rcases hfu : findUser w1.db.users p.sub with _ | u
      · simp only []
        rw [hi]
      · simp only []
        have hne : u.status ≠ "ACTIVE" := hfail p htok u (by rw [← husers1]; exact hfu)
        rw [if_pos hne, hi]
    · simp only [jwtVerify]
      simp only [vstCatch]
      rw [hi]
  · intro sid w w1 h
    simp only [validateSessionToken]
    rw [h]

/-- C5, claim as stated is false: a missing session (here: only an expired yet
still-active durable row) makes validateSessionToken return absent without any
invalidation side effect — the durable row stays active and the world is
unchanged. -/
theorem thm_C5_counterexample :
    validateSessionToken "s1" cexWorldC5 = (.ok none, cexWorldC5) ∧
    findActiveSession cexWorldC5.db.sessions "s1" = some cexRowC5 ∧
    cexRowC5.isActive = true :=
  ⟨rfl, rfl, rfl⟩

theorem thm_C5_witness :
    (WNF exWorldC1 ∧
      validateSessionToken "s1" exWorldC1 =
        (.ok (some (toUserDto exDbUser)), exWorldC1) ∧
      ∃ sd p u, validateSession "s1" exWorldC1 = (.ok (some sd), exWorldC1) ∧
        sd.jwtToken = .signed p ∧ findUser exWorldC1.db.users p.sub = some u ∧
        u.status = "ACTIVE" ∧ toUserDto exDbUser = toUserDto u) ∧
    (∃ w2, validateSessionToken "s1" exWorldC5b = (.ok none, w2) ∧
      aget w2.redis (sessKeyOf "s1") = none ∧
      w2.db.sessions = markInactive "s1" exWorldC5b.db.sessions) ∧
    validateSessionToken "s1" cexWorldC5 = (.ok none, cexWorldC5) :=
  ⟨⟨⟨rfl, rfl⟩, rfl,
    thm_C5.1 "s1" exWorldC1 (toUserDto exDbUser) exWorldC1 ⟨rfl, rfl⟩ rfl⟩,
   thm_C5.2.1 "s1" exWorldC5b exWorldC5b cexSessC5 ⟨rfl, rfl⟩ rfl
     (by intro p hp; simp [cexSessC5] at hp),
   thm_C5.2.2 "s1" cexWorldC5 cexWorldC5 rfl⟩

theorem invalidateSession_wnf {sid : String} {w : World} (hw : WNF w) :
    WNF (invalidateSession sid w).2 := by
  cases hl : lookupAlive w (sessKeyOf sid) with
  | none =>
    exact (invalidateSession_char hw
      (by intro flds hc; rw [hl] at hc; exact absurd hc (by simp))).2.1
  | some c =>
    cases c with
    | str v =>
      exact (invalidateSession_char hw
        (by intro flds hc; rw [hl] at hc; simp at hc)).2.1
    | hash flds =>
      have herr : invalidateSession sid w = (.error (), w) := by
        simp only [invalidateSession, redisGet_nf hw.1, hl]
      rw [herr]
      exact hw

theorem invalidateEach_wnf (ids : List String) :
    ∀ w : World, WNF w → WNF (invalidateEach ids w).2 := by
  induction ids with
  | nil => intro w hw; exact hw
  | cons sid rest ih =>
    intro w hw
    have h1 := @invalidateSession_wnf sid w hw
    simp only [invalidateEach]
    rcases hi : invalidateSession sid w with ⟨ri, wi⟩
    rw [hi] at h1
    simp only at h1
    cases ri with
    | error e => exact h1
    | ok u => exact ih wi h1

theorem getUserSessions_no_index {uid : String} {w : World}
    (hrf : w.redisFaults = [])
    (hkey : lookupAlive w (userKeyOf uid) = none) :
    getUserSessions uid w = (.ok [], w) := by
  simp only [getUserSessions, redisHgetall_nf hrf, hkey]
  simp [collectSessions]

theorem getUserSessions_after_tail {uid : String} {w2 w' : World}
    (hw2 : WNF w2)
    (hrun : w' = (dbUpdateSessions (fun r => r.userId == uid && r.isActive)
        (fun r => { r with isActive := false })
        ⟨aremove w2.redis (userKeyOf uid), w2.db, w2.nowMs, w2.redisFaults,
          w2.dbFaults⟩).2) :
    getUserSessions uid w' = (.ok [], w') := by
  subst hrun
  have hdf : (⟨aremove w2.redis (userKeyOf uid), w2.db, w2.nowMs,
      w2.redisFaults, w2.dbFaults⟩ : World).dbFaults = [] := hw2.2
  rw [dbUpdateSessions_nf hdf]
  exact getUserSessions_no_index hw2.1
    (by simp [lookupAlive, lookupAliveL, aget_aremove_self])

/-- C8: with the stores operating normally, invalidateAllUserSessions(u)
followed by getUserSessions(u) returns the empty list, for any prior state
(hence any number of previously created sessions for u). -/
theorem thm_C8 :
    ∀ (uid : String) (w w' : World), WNF w →
      invalidateAllUserSessions uid w = (.ok (), w') →
      getUserSessions uid w' = (.ok [], w') := by
  intro uid w w' hw hrun
  simp only [invalidateAllUserSessions, redisHgetall_nf hw.1] at hrun
  cases hl : lookupAlive w (userKeyOf uid) with
  | none =>
    rw [hl] at hrun
    simp only [List.map_nil] at hrun
    rcases he : invalidateEach [] w with ⟨re, w2⟩
    rw [he] at hrun
    have hw2 := invalidateEach_wnf [] w hw
    rw [he] at hw2
    simp only at hw2
    cases re with
    | error e => simp only [] at hrun; simp at hrun
    | ok u =>
      simp only [] at hrun
      rw [redisDel_nf hw2.1] at hrun
      simp only [] at hrun
      injection hrun with h1 h2
      exact getUserSessions_after_tail hw2 h2.symm
  | some c =>
    cases c with
    | str v =>
      rw [hl] at hrun
      simp only [] at hrun
      simp at hrun
    | hash flds =>
      rw [hl] at hrun
      simp only [] at hrun
      rcases he : invalidateEach (flds.map Prod.fst) w with ⟨re, w2⟩
      rw [he] at hrun
      have hw2 := invalidateEach_wnf (flds.map Prod.fst) w hw
      rw [he] at hw2
      simp only at hw2
      cases re with
      | error e => simp only [] at hrun; simp at hrun
      | ok u =>
        simp only [] at hrun
        rw [redisDel_nf hw2.1] at hrun
        simp only [] at hrun
        injection hrun with h1 h2
        exact getUserSessions_after_tail hw2 h2.symm

theorem thm_C8_witness :
    WNF exWorldC8 ∧
    invalidateAllUserSessions "u1" exWorldC8 =
      (.ok (), (invalidateAllUserSessions "u1" exWorldC8).2) ∧
    getUserSessions "u1" (invalidateAllUserSessions "u1" exWorldC8).2 =
      (.ok [], (invalidateAllUserSessions "u1" exWorldC8).2) :=
  ⟨⟨rfl, rfl⟩, rfl,
   thm_C8 "u1" exWorldC8 (invalidateAllUserSessions "u1" exWorldC8).2
     ⟨rfl, rfl⟩ rfl⟩

theorem aget_none_aremove {l : List (String × REntry)} {k : String}
    (k' : String) (h : aget l k = none) : aget (aremove l k') k = none := by
  by_cases hk : k = k'
  · subst hk
    exact aget_aremove_self l k
  · rw [aget_aremove_ne l hk]
    exact h

theorem aget_none_aset {l : List (String × REntry)} {k k' : String}
    {e : REntry} (e' : REntry) (hk' : aget l k' = some e)
    (h : aget l k = none) : aget (aset l k' e') k = none := by
  have hne : k ≠ k' := by
    intro hc
    subst hc
    rw [h] at hk'
    exact absurd hk' (by simp)
  rw [aget_aset_ne l e' hne]
  exact h

theorem any_fdel_mono (flds : List (String × String)) (fid : String)
    (p : String × String → Bool) (h : flds.any p = false) :
    (fdel flds fid).any p = false := by
  induction flds with
  | nil => simp [fdel]
  | cons q rest ih =>
    obtain ⟨qf, qv⟩ := q
    simp only [List.any_cons, Bool.or_eq_false_iff] at h
    by_cases hf : fid = qf
    · simp only [fdel, if_pos hf]
      exact ih h.2
    · simp only [fdel, if_neg hf, List.any_cons, Bool.or_eq_false_iff]
      exact ⟨h.1, ih h.2⟩

theorem hasFieldL_false_aremove {now : Nat} {l : List (String × REntry)}
    {k f : String} (k' : String) (h : hasFieldL now l k f = false) :
    hasFieldL now (aremove l k') k f = false := by
  by_cases hk : k = k'
  · subst hk
    simp [hasFieldL, lookupAliveL_aremove_self]
  · unfold hasFieldL
    rw [lookupAliveL_aremove_ne now l hk]
    exact h

theorem hasFieldL_false_hdel {now : Nat} {l : List (String × REntry)}
    {k f uk fid : String} {e : REntry} {flds : List (String × String)}
    (he : aget l uk = some e) (hc : e.content = .hash flds)
    (h : hasFieldL now l k f = false) :
    hasFieldL now (aset l uk ⟨.hash (fdel flds fid), e.expireAtMs⟩) k f
      = false := by
  by_cases hk : k = uk
  · subst hk
    unfold hasFieldL
    rw [lookupAliveL_aset_self]
    by_cases hal : aliveAt now e.expireAtMs
    · rw [if_pos hal]
      simp only []
      have hlook : lookupAliveL now l k = some (.hash flds) := by
        simp [lookupAliveL, he, hal, hc]
      unfold hasFieldL at h
      rw [hlook] at h
      exact any_fdel_mono flds fid _ h
    · rw [if_neg hal]
  · unfold hasFieldL
    rw [lookupAliveL_aset_ne now l _ hk]
    exact h
theorem cleanupRedisEntries_char (rows : List DbSession) :
    ∀ w : World, w.redisFaults = [] →
    (∀ u s, lookupAlive w (userKeyOf u) ≠ some (.str s)) →
    ∃ w2, cleanupRedisEntries rows w = (.ok (), w2) ∧
      w2.redisFaults = [] ∧ w2.dbFaults = w.dbFaults ∧
      w2.nowMs = w.nowMs ∧ w2.db = w.db ∧
      (∀ k, aget w.redis k = none → aget w2.redis k = none) ∧
      (∀ k f, hasFieldL w.nowMs w.redis k f = false →
        hasFieldL w.nowMs w2.redis k f = false) ∧
      (∀ u s, lookupAlive w2 (userKeyOf u) ≠ some (.str s)) ∧
      (∀ r ∈ rows, aget w2.redis (sessKeyOf r.id) = none ∧
        hasFieldL w.nowMs w2.redis (userKeyOf r.userId) r.id = false) := by
  induction rows with
  | nil =>
    intro w hrf hty
    exact ⟨w, rfl, hrf, rfl, rfl, rfl, fun _ h => h, fun _ _ h => h, hty,
      fun r hr => absurd hr (List.not_mem_nil r)⟩
  | cons r rest ih =>
    intro w hrf hty
    have hne1 : userKeyOf r.userId ≠ sessKeyOf r.id :=
      Ne.symm (sessKeyOf_ne_userKeyOf r.id r.userId)
    have htyA : ∀ u s,
        lookupAlive (⟨aremove w.redis (sessKeyOf r.id), w.db, w.nowMs, [],
          w.dbFaults⟩ : World) (userKeyOf u) ≠ some (.str s) := by
      intro u s hcq
      have hcq' : lookupAliveL w.nowMs (aremove w.redis (sessKeyOf r.id))
          (userKeyOf u) = some (.str s) := hcq
      rw [lookupAliveL_aremove_ne _ _
        (fun h => sessKeyOf_ne_userKeyOf r.id u h.symm)] at hcq'
      exact hty u s hcq'
    cases hu : aget (aremove w.redis (sessKeyOf r.id)) (userKeyOf r.userId) with
    | none =>
      obtain ⟨w2, hrun, hrf2, hdf2, hnow2, hdb2, hM1, hM2, hty2, hrows⟩ :=
        ih ⟨aremove w.redis (sessKeyOf r.id), w.db, w.nowMs, [], w.dbFaults⟩
          rfl htyA
      refine ⟨w2, ?_, hrf2, hdf2, hnow2, hdb2, ?_, ?_, hty2, ?_⟩
      · simp only [cleanupRedisEntries, redisDel_nf, redisHdel_nf, hrf, hu]
        exact hrun
      · intro k hk
        exact hM1 k (aget_none_aremove _ hk)
      · intro k f hk
        exact hM2 k f (hasFieldL_false_aremove _ hk)
      · intro r' hr'
        rcases List.mem_cons.mp hr' with h | h
        · subst h
          refine ⟨hM1 _ (aget_aremove_self _ _), hM2 _ _ ?_⟩
          simp only [hasFieldL, lookupAliveL, hu]
        · exact hrows r' h
    | some e =>
      by_cases ha : aliveAt w.nowMs e.expireAtMs
      · cases hc : e.content with
        | str s' =>
          have hu' : aget w.redis (userKeyOf r.userId) = some e :=
            (aget_aremove_ne w.redis hne1).symm.trans hu
          have hstr : lookupAlive w (userKeyOf r.userId) = some (.str s') := by
            simp [lookupAlive, lookupAliveL, hu', ha, hc]
          exact absurd hstr (hty r.userId s')
        | hash flds =>
          have htyB : ∀ u s,
              lookupAlive (⟨aset (aremove w.redis (sessKeyOf r.id))
                  (userKeyOf r.userId) ⟨.hash (fdel flds r.id), e.expireAtMs⟩,
                w.db, w.nowMs, [], w.dbFaults⟩ : World)
                (userKeyOf u) ≠ some (.str s) := by
            intro u s hcq
            have hcq' : lookupAliveL w.nowMs
                (aset (aremove w.redis (sessKeyOf r.id)) (userKeyOf r.userId)
                  ⟨.hash (fdel flds r.id), e.expireAtMs⟩)
                (userKeyOf u) = some (.str s) := hcq
            by_cases hku : userKeyOf u = userKeyOf r.userId
            · rw [hku, lookupAliveL_aset_self] at hcq'
              rw [if_pos ha] at hcq'
              simp at hcq'
            · rw [lookupAliveL_aset_ne _ _ _ hku] at hcq'
              rw [lookupAliveL_aremove_ne _ _
                (fun h => sessKeyOf_ne_userKeyOf r.id u h.symm)] at hcq'
              exact hty u s hcq'
          obtain ⟨w2, hrun, hrf2, hdf2, hnow2, hdb2, hM1, hM2, hty2, hrows⟩ :=
            ih ⟨aset (aremove w.redis (sessKeyOf r.id)) (userKeyOf r.userId)
                  ⟨.hash (fdel flds r.id), e.expireAtMs⟩,
                w.db, w.nowMs, [], w.dbFaults⟩ rfl htyB
          refine ⟨w2, ?_, hrf2, hdf2, hnow2, hdb2, ?_, ?_, hty2, ?_⟩
          · simp only [cleanupRedisEntries, redisDel_nf, redisHdel_nf, hrf, hu,
              hc, ha, if_true]
            exact hrun
          · intro k hk
            exact hM1 k (aget_none_aset _ hu (aget_none_aremove _ hk))
          · intro k f hk
            exact hM2 k f
              (hasFieldL_false_hdel hu hc (hasFieldL_false_aremove _ hk))
          · intro r' hr'
            rcases List.mem_cons.mp hr' with h | h
            · subst h
              refine ⟨hM1 _ (aget_none_aset _ hu (aget_aremove_self _ _)),
                hM2 _ _ ?_⟩
              show hasFieldL w.nowMs
                (aset (aremove w.redis (sessKeyOf r'.id)) (userKeyOf r'.userId)
                  ⟨.hash (fdel flds r'.id), e.expireAtMs⟩)
                (userKeyOf r'.userId) r'.id = false
              unfold hasFieldL
              rw [lookupAliveL_aset_self]
              simp [ha, fdel_any_eq_false]
            · exact hrows r' h
      · obtain ⟨w2, hrun, hrf2, hdf2, hnow2, hdb2, hM1, hM2, hty2, hrows⟩ :=
          ih ⟨aremove w.redis (sessKeyOf r.id), w.db, w.nowMs, [], w.dbFaults⟩
            rfl htyA
        refine ⟨w2, ?_, hrf2, hdf2, hnow2, hdb2, ?_, ?_, hty2, ?_⟩
        · simp only [cleanupRedisEntries, redisDel_nf, redisHdel_nf, hrf, hu,
            ha, Bool.not_eq_true, if_false, Bool.false_eq_true, ite_false]
          exact hrun
        · intro k hk
          exact hM1 k (aget_none_aremove _ hk)
        · intro k f hk
          exact hM2 k f (hasFieldL_false_aremove _ hk)
        · intro r' hr'
          rcases List.mem_cons.mp hr' with h | h
          · subst h
            refine ⟨hM1 _ (aget_aremove_self _ _), hM2 _ _ ?_⟩
            simp only [hasFieldL, lookupAliveL, hu]
            rw [Bool.not_eq_true] at ha
            simp [ha]
          · exact hrows r' h

theorem filter_pos_of_filter_neg {α : Type} (l : List α) (p : α → Bool) :
    (l.filter fun x => !p x).filter p = [] := by
  induction l with
  | nil => rfl
  | cons x rest ih =>
    by_cases h : p x = true
    · simp [List.filter_cons, h, ih]
    · simp [List.filter_cons, h, ih]

theorem filter_neg_idem {α : Type} (l : List α) (p : α → Bool) :
    ((l.filter fun x => !p x).filter fun x => !p x) = l.filter fun x => !p x := by
  induction l with
  | nil => rfl
  | cons x rest ih =>
    by_cases h : p x = true
    · simp [List.filter_cons, h, ih]
    · simp [List.filter_cons, h, ih]

theorem cleanupBody_char {w : World} (hw : WNF w)
    (hty : ∀ u s, lookupAlive w (userKeyOf u) ≠ some (.str s)) :
    ∃ w', cleanupBody w = (.ok (), w') ∧ WNF w' ∧ w'.nowMs = w.nowMs ∧
      w'.db.users = w.db.users ∧
      w'.db.sessions =
        w.db.sessions.filter (fun r => !expiredOrInactive w.nowMs r) ∧
      (∀ r ∈ w.db.sessions, expiredOrInactive w.nowMs r = true →
        aget w'.redis (sessKeyOf r.id) = none ∧
        hasFieldL w.nowMs w'.redis (userKeyOf r.userId) r.id = false) := by
  obtain ⟨hrf, hdf⟩ := hw
  obtain ⟨w2, hrun, hrf2, hdf2, hnow2, hdb2, hM1, hM2, hty2, hrows⟩ :=
    cleanupRedisEntries_char (w.db.sessions.filter (expiredOrInactive w.nowMs))
      w hrf hty
  have hdf2' : w2.dbFaults = [] := hdf2.trans hdf
  refine ⟨{ w2 with db := { w2.db with sessions := w2.db.sessions.filter fun r => !expiredOrInactive w2.nowMs r } }, ?_, ⟨hrf2, hdf2'⟩, hnow2, ?_, ?_, ?_⟩
  · simp only [cleanupBody, dbFindSessions_nf hdf]
    rw [hrun]
    simp only []
    rw [dbDeleteSessions_nf hdf2']
  · have husers2 : w2.db.users = w.db.users := congrArg DbState.users hdb2
    exact husers2
  · simp only [hnow2, hdb2]
  · intro r hr hexp
    exact hrows r (List.mem_filter.mpr ⟨hr, hexp⟩)

/-- C9 (amended): cleanupExpiredSessions deletes from the durable store every
record that is expired OR inactive — not only the expired ones — and leaves
the remaining records untouched; for each swept record it removes the
fast-store entry and the per-user index membership; and an immediately
repeated run is a complete no-op. -/
theorem thm_C9 :
    ∀ w : World, WNF w →
      (∀ u s, lookupAlive w (userKeyOf u) ≠ some (.str s)) →
      ∃ w', cleanupExpiredSessions w = (.ok (), w') ∧ WNF w' ∧
        w'.nowMs = w.nowMs ∧ w'.db.users = w.db.users ∧
        w'.db.sessions =
          w.db.sessions.filter (fun r => !expiredOrInactive w.nowMs r) ∧
        (∀ r ∈ w.db.sessions, expiredOrInactive w.nowMs r = true →
          aget w'.redis (sessKeyOf r.id) = none ∧
          hasFieldL w.nowMs w'.redis (userKeyOf r.userId) r.id = false) ∧
        cleanupExpiredSessions w' = (.ok (), w') := by
  intro w hw hty
  obtain ⟨w', hrun, hw', hnow', husers', hsess', hrows'⟩ := cleanupBody_char hw hty
  refine ⟨w', ?_, hw', hnow', husers', hsess', hrows', ?_⟩
  · simp only [cleanupExpiredSessions]
    rw [hrun]
  · have hrows0 : w'.db.sessions.filter (expiredOrInactive w'.nowMs) = [] := by
      rw [hnow', hsess']
      exact filter_pos_of_filter_neg _ _
    have hsessid : w'.db.sessions.filter
        (fun r => !expiredOrInactive w'.nowMs r) = w'.db.sessions := by
      rw [hnow', hsess']
      exact filter_neg_idem _ _
    simp only [cleanupExpiredSessions, cleanupBody, dbFindSessions_nf hw'.2,
      hrows0]
    simp only [cleanupRedisEntries]
    rw [dbDeleteSessions_nf hw'.2]
    rw [hsessid]

/-- C9, claim as stated is false: an inactive row that is NOT expired is also
deleted from the durable store by cleanupExpiredSessions, so unexpired records
are not all left untouched. -/
theorem thm_C9_counterexample :
    ¬ (cexRowC9.expiresAt < cexWorldC9.nowMs) ∧
    cexRowC9 ∈ cexWorldC9.db.sessions ∧
    cleanupExpiredSessions cexWorldC9 = (.ok (), exWorld) ∧
    cexRowC9 ∉ exWorld.db.sessions :=
  ⟨by decide, by simp [cexWorldC9], rfl, by simp [exWorld]⟩

theorem thm_C9_witness :
    WNF cexWorldC9 ∧
    (∀ u s, lookupAlive cexWorldC9 (userKeyOf u) ≠ some (.str s)) ∧
    (∃ w', cleanupExpiredSessions cexWorldC9 = (.ok (), w') ∧ WNF w' ∧
      w'.nowMs = cexWorldC9.nowMs ∧ w'.db.users = cexWorldC9.db.users ∧
      w'.db.sessions = cexWorldC9.db.sessions.filter
        (fun r => !expiredOrInactive cexWorldC9.nowMs r) ∧
      (∀ r ∈ cexWorldC9.db.sessions,
        expiredOrInactive cexWorldC9.nowMs r = true →
        aget w'.redis (sessKeyOf r.id) = none ∧
        hasFieldL cexWorldC9.nowMs w'.redis (userKeyOf r.userId) r.id = false) ∧
      cleanupExpiredSessions w' = (.ok (), w')) :=
  ⟨⟨rfl, rfl⟩,
   by intro u s hc; simp [cexWorldC9, lookupAlive, lookupAliveL, aget] at hc,
   thm_C9 cexWorldC9 ⟨rfl, rfl⟩
     (by intro u s hc; simp [cexWorldC9, lookupAlive, lookupAliveL, aget] at hc)⟩

theorem any_fdel_rev {flds : List (String × String)} {fid : String}
    {p : String × String → Bool} (h : (fdel flds fid).any p = true) :
    flds.any p = true := by
  cases hf : flds.any p with
  | true => rfl
  | false =>
    rw [any_fdel_mono flds fid p hf] at h
    simp at h

theorem any_fset_rev {flds : List (String × String)} {k v f : String}
    (h : ((fset flds k v).any fun p => p.1 == f) = true) :
    (flds.any fun p => p.1 == f) = true ∨ f = k := by
  induction flds with
  | nil =>
    simp only [fset, List.any_cons, List.any_nil, Bool.or_false] at h
    right
    exact (beq_iff_eq.mp h).symm
  | cons q rest ih =>
    obtain ⟨qf, qv⟩ := q
    by_cases hk : k = qf
    · simp only [fset, if_pos hk, List.any_cons] at h
      rcases Bool.or_eq_true_iff.mp h with h1 | h1
      · right
        exact (beq_iff_eq.mp h1).symm
      · left
        simp only [List.any_cons, h1, Bool.or_true]
    · simp only [fset, if_neg hk, List.any_cons] at h
      rcases Bool.or_eq_true_iff.mp h with h1 | h1
      · left
        simp only [List.any_cons, h1, Bool.true_or]
      · rcases ih h1 with h2 | h2
        · left
          simp only [List.any_cons, h2, Bool.or_true]
        · right
          exact h2

theorem hasFieldL_true_aremove {now : Nat} {l : List (String × REntry)}
    {k f : String} {k' : String}
    (h : hasFieldL now (aremove l k') k f = true) :
    hasFieldL now l k f = true := by
  by_cases hk : k = k'
  · subst hk
    simp [hasFieldL, lookupAliveL_aremove_self] at h
  · unfold hasFieldL at h
    rw [lookupAliveL_aremove_ne now l hk] at h
    exact h

theorem hasFieldL_true_hdel {now : Nat} {l : List (String × REntry)}
    {k f uk fid : String} {e : REntry} {flds : List (String × String)}
    (he : aget l uk = some e) (hc : e.content = .hash flds)
    (h : hasFieldL now
      (aset l uk ⟨.hash (fdel flds fid), e.expireAtMs⟩) k f = true) :
    hasFieldL now l k f = true := by
  by_cases hk : k = uk
  · subst hk
    unfold hasFieldL at h
    rw [lookupAliveL_aset_self] at h
    by_cases hal : aliveAt now e.expireAtMs
    · rw [if_pos hal] at h
      simp only [] at h
      unfold hasFieldL
      have hlook : lookupAliveL now l k = some (.hash flds) := by
        simp [lookupAliveL, he, hal, hc]
      rw [hlook]
      exact any_fdel_rev h
    · rw [if_neg hal] at h
      simp at h
  · unfold hasFieldL at h ⊢
    rw [lookupAliveL_aset_ne now l _ hk] at h
    exact h

theorem hasFieldL_aset_sessKey (now : Nat) (l : List (String × REntry))
    (s u0 f : String) (E : REntry) :
    hasFieldL now (aset l (sessKeyOf s) E) (userKeyOf u0) f =
      hasFieldL now l (userKeyOf u0) f := by
  unfold hasFieldL
  rw [lookupAliveL_aset_ne now l E (Ne.symm (sessKeyOf_ne_userKeyOf s u0))]

theorem markInactive_shape {sid : String} {l : List DbSession} {r' : DbSession}
    (h : r' ∈ markInactive sid l) :
    ∃ r ∈ l, r'.id = r.id ∧ r'.userId = r.userId := by
  unfold markInactive at h
  obtain ⟨r, hr, heq⟩ := List.mem_map.mp h
  by_cases hid : r.id == sid
  · rw [if_pos hid] at heq
    exact ⟨r, hr, by rw [← heq], by rw [← heq]⟩
  · rw [if_neg hid] at heq
    exact ⟨r, hr, by rw [← heq], by rw [← heq]⟩

theorem invalidateSession_userKey_mono {sid : String} {w : World}
    (hw : WNF w) {u f : String}
    (h : hasFieldL w.nowMs (invalidateSession sid w).2.redis
      (userKeyOf u) f = true) :
    hasFieldL w.nowMs w.redis (userKeyOf u) f = true := by
  obtain ⟨hrf, hdf⟩ := hw
  cases hl : lookupAlive w (sessKeyOf sid) with
  | none =>
    have hred : (invalidateSession sid w).2.redis =
        aremove w.redis (sessKeyOf sid) := by
      simp only [invalidateSession, redisGet_nf, redisDel_nf,
        dbUpdateSessions_nf, hrf, hdf, hl]
    rw [hred] at h
    exact hasFieldL_true_aremove h
  | some c =>
    cases c with
    | hash flds =>
      have hred : (invalidateSession sid w).2.redis = w.redis := by
        simp only [invalidateSession, redisGet_nf, hrf, hl]
      rw [hred] at h
      exact h
    | str v =>
      cases v with
      | raw s0 =>
        have hred : (invalidateSession sid w).2.redis =
            aremove w.redis (sessKeyOf sid) := by
          simp only [invalidateSession, redisGet_nf, redisDel_nf,
            dbUpdateSessions_nf, hrf, hdf, hl]
        rw [hred] at h
        exact hasFieldL_true_aremove h
      | sess d =>
        cases hu : aget w.redis (userKeyOf d.userId) with
        | none =>
          have hred : (invalidateSession sid w).2.redis =
              aremove w.redis (sessKeyOf sid) := by
            simp only [invalidateSession, redisGet_nf, redisHdel_nf,
              redisDel_nf, dbUpdateSessions_nf, hrf, hdf, hl, hu]
          rw [hred] at h
          exact hasFieldL_true_aremove h
        | some e =>
          by_cases ha : aliveAt w.nowMs e.expireAtMs
          · cases hc : e.content with
            | str v' =>
              have hred : (invalidateSession sid w).2.redis =
                  aremove w.redis (sessKeyOf sid) := by
                simp only [invalidateSession, redisGet_nf, redisHdel_nf,
                  redisDel_nf, dbUpdateSessions_nf, hrf, hdf, hl, hu, ha, hc,
                  if_true]
              rw [hred] at h
              exact hasFieldL_true_aremove h
            | hash flds =>
              have hred : (invalidateSession sid w).2.redis =
                  aremove (aset w.redis (userKeyOf d.userId)
                    ⟨.hash (fdel flds sid), e.expireAtMs⟩)
                    (sessKeyOf sid) := by
                simp only [invalidateSession, redisGet_nf, redisHdel_nf,
                  redisDel_nf, dbUpdateSessions_nf, hrf, hdf, hl, hu, ha, hc,
                  if_true]
              rw [hred] at h
              exact hasFieldL_true_hdel hu hc (hasFieldL_true_aremove h)
          · have hred : (invalidateSession sid w).2.redis =
                aremove w.redis (sessKeyOf sid) := by
              simp only [invalidateSession, redisGet_nf, redisHdel_nf,
                redisDel_nf, dbUpdateSessions_nf, hrf, hdf, hl, hu, ha,
                Bool.not_eq_true, if_false, Bool.false_eq_true, ite_false]
            rw [hred] at h
            exact hasFieldL_true_aremove h

theorem validateSession_foot {sid : String} {w : World}
    {res : Except Unit (Option SessionData)} {w1 : World}
    (hw : WNF w) (hv : validateSession sid w = (res, w1)) :
    WNF w1 ∧ w1.nowMs = w.nowMs ∧ w1.db.users = w.db.users ∧
    (∀ s, s ≠ sid → aget w1.redis (sessKeyOf s) = aget w.redis (sessKeyOf s)) ∧
    (∀ d', lookupAliveL w.nowMs w1.redis (sessKeyOf sid) =
        some (.str (.sess d')) →
      lookupAlive w (sessKeyOf sid) = some (.str (.sess d')) ∨
      ∃ r, findActiveSession w.db.sessions sid = some r ∧
        d'.userId = r.userId) ∧
    (∀ r' ∈ w1.db.sessions, ∃ r ∈ w.db.sessions,
      r'.id = r.id ∧ r'.userId = r.userId) ∧
    (∀ u f, hasFieldL w.nowMs w1.redis (userKeyOf u) f = true →
      hasFieldL w.nowMs w.redis (userKeyOf u) f = true) := by
  obtain ⟨hrf, hdf⟩ := hw
  cases hl : lookupAlive w (sessKeyOf sid) with
  | none =>
    simp only [validateSession, redisGet_nf hrf, hl,
      dbFindActiveSessionWithUser_nf hdf] at hv
    rcases hfind : findActiveSession w.db.sessions sid with _ | r
    · rw [hfind] at hv
      simp only [] at hv
      injection hv with h1 h2
      subst h2
      exact ⟨⟨hrf, hdf⟩, rfl, rfl, fun _ _ => rfl, fun d' hd' => Or.inl (hl ▸ hd'),
        fun r' hr' => ⟨r', hr', rfl, rfl⟩, fun _ _ hx => hx⟩
    · rw [hfind] at hv
      simp only [] at hv
      rcases hfu : findUser w.db.users r.userId with _ | u
      · rw [hfu] at hv
        simp only [] at hv
        injection hv with h1 h2
        subst h2
        exact ⟨⟨hrf, hdf⟩, rfl, rfl, fun _ _ => rfl, fun d' hd' => Or.inl (hl ▸ hd'),
          fun r' hr' => ⟨r', hr', rfl, rfl⟩, fun _ _ hx => hx⟩
      · rw [hfu] at hv
        simp only [] at hv
        by_cases hexp : r.expiresAt < w.nowMs
        · rw [if_pos hexp] at hv
          injection hv with h1 h2
          subst h2
          exact ⟨⟨hrf, hdf⟩, rfl, rfl, fun _ _ => rfl, fun d' hd' => Or.inl (hl ▸ hd'),
            fun r' hr' => ⟨r', hr', rfl, rfl⟩, fun _ _ hx => hx⟩
        · rw [if_neg hexp] at hv
          by_cases httl : 0 < (r.expiresAt - w.nowMs) / 1000
          · rw [if_pos httl] at hv
            rw [redisSet_nf hrf] at hv
            simp only [] at hv
            injection hv with h1 h2
            subst h2
            refine ⟨⟨hrf, hdf⟩, rfl, rfl, ?_, ?_, fun r' hr' => ⟨r', hr', rfl, rfl⟩, ?_⟩
            · intro s hs
              exact aget_aset_ne _ _ fun hc => hs (sessKeyOf_inj hc)
            · intro d' hd'
              unfold lookupAliveL at hd'
              rw [aget_aset_self] at hd'
              simp only [] at hd'
              by_cases hal : aliveAt w.nowMs
                  (if (r.expiresAt - w.nowMs) / 1000 = 0 then none
                   else some (w.nowMs + (r.expiresAt - w.nowMs) / 1000 * 1000))
              · rw [if_pos hal] at hd'
                simp only [Option.some.injEq, RContent.str.injEq,
                  SVal.sess.injEq] at hd'
                subst hd'
                exact Or.inr ⟨r, rfl, rfl⟩
              · rw [if_neg hal] at hd'
                exact absurd hd' (by simp)
            · intro u0 f hx
              rw [hasFieldL_aset_sessKey] at hx
              exact hx
          · rw [if_neg httl] at hv
            injection hv with h1 h2
            subst h2
            exact ⟨⟨hrf, hdf⟩, rfl, rfl, fun _ _ => rfl, fun d' hd' => Or.inl (hl ▸ hd'),
              fun r' hr' => ⟨r', hr', rfl, rfl⟩, fun _ _ hx => hx⟩
  | some c =>
    cases c with
    | hash flds =>
      simp only [validateSession, redisGet_nf hrf, hl] at hv
      injection hv with h1 h2
      subst h2
      exact ⟨⟨hrf, hdf⟩, rfl, rfl, fun _ _ => rfl, fun d' hd' => Or.inl (hl ▸ hd'),
        fun r' hr' => ⟨r', hr', rfl, rfl⟩, fun _ _ hx => hx⟩
    | str v =>
      have hstr : ∀ flds, lookupAlive w (sessKeyOf sid) ≠ some (.hash flds) := by
        intro flds hc
        rw [hl] at hc
        exact absurd hc (by simp)
      cases v with
      | raw s0 =>
        obtain ⟨hok, hwnf, hnow, husers, hsess, hkey, hframe, _⟩ :=
          invalidateSession_char ⟨hrf, hdf⟩ hstr
        rcases hi : invalidateSession sid w with ⟨ri, wi⟩
        rw [hi] at hok hwnf hnow husers hsess hkey hframe
        simp only at hok hwnf hnow husers hsess hkey hframe
        subst hok
        have hmono' : ∀ u0 f0,
            hasFieldL w.nowMs wi.redis (userKeyOf u0) f0 = true →
            hasFieldL w.nowMs w.redis (userKeyOf u0) f0 = true := by
          intro u0 f0 hx
          refine @invalidateSession_userKey_mono sid w ⟨hrf, hdf⟩ u0 f0 ?_
          rw [hi]
          exact hx
        simp only [validateSession, redisGet_nf hrf, hl] at hv
        rw [hi] at hv
        simp only [] at hv
        injection hv with h1 h2
        subst h2
        refine ⟨hwnf, hnow, husers, hframe, ?_, ?_, hmono'⟩
        · intro d' hd'
          unfold lookupAliveL at hd'
          rw [hkey] at hd'
          exact absurd hd' (by simp)
        · intro r' hr'
          rw [hsess] at hr'
          exact markInactive_shape hr'
      | sess d =>
        by_cases hexp : d.expiresAt < w.nowMs
        · obtain ⟨hok, hwnf, hnow, husers, hsess, hkey, hframe, _⟩ :=
            invalidateSession_char ⟨hrf, hdf⟩ hstr
          rcases hi : invalidateSession sid w with ⟨ri, wi⟩
          rw [hi] at hok hwnf hnow husers hsess hkey hframe
          simp only at hok hwnf hnow husers hsess hkey hframe
          subst hok
          have hmono' : ∀ u0 f0,
              hasFieldL w.nowMs wi.redis (userKeyOf u0) f0 = true →
              hasFieldL w.nowMs w.redis (userKeyOf u0) f0 = true := by
            intro u0 f0 hx
            refine @invalidateSession_userKey_mono sid w ⟨hrf, hdf⟩ u0 f0 ?_
            rw [hi]
            exact hx
          simp only [validateSession, redisGet_nf hrf, hl, if_pos hexp] at hv
          rw [hi] at hv
          simp only [] at hv
          injection hv with h1 h2
          subst h2
          refine ⟨hwnf, hnow, husers, hframe, ?_, ?_, hmono'⟩
          · intro d' hd'
            unfold lookupAliveL at hd'
            rw [hkey] at hd'
            exact absurd hd' (by simp)
          · intro r' hr'
            rw [hsess] at hr'
            exact markInactive_shape hr'
        · simp only [validateSession, redisGet_nf hrf, hl, if_neg hexp] at hv
          injection hv with h1 h2
          subst h2
          exact ⟨⟨hrf, hdf⟩, rfl, rfl, fun _ _ => rfl, fun d' hd' => Or.inl (hl ▸ hd'),
            fun r' hr' => ⟨r', hr', rfl, rfl⟩, fun _ _ hx => hx⟩

theorem QOwner_pres {sid : String} {w : World}
    {res : Except Unit (Option SessionData)} {w1 : World}
    (hw : WNF w) (hv : validateSession sid w = (res, w1))
    {sid' uid : String} (hq : QOwner w sid' uid) : QOwner w1 sid' uid := by
  obtain ⟨hwnf, hnow, husers, hframe, hsid, hdb, hmono⟩ :=
    validateSession_foot hw hv
  constructor
  · intro d hd
    have hd' : lookupAliveL w.nowMs w1.redis (sessKeyOf sid') =
        some (.str (.sess d)) := by
      rw [← hnow]
      exact hd
    by_cases hss : sid' = sid
    · subst hss
      rcases hsid d hd' with h | ⟨r, hr, hux⟩
      · exact hq.1 d h
      · obtain ⟨hmem, hid, _⟩ := findActiveSession_mem hr
        rw [hux]
        exact hq.2 r hmem hid
    · have hfr := hframe sid' hss
      have heq : lookupAliveL w.nowMs w1.redis (sessKeyOf sid') =
          lookupAlive w (sessKeyOf sid') := by
        unfold lookupAlive lookupAliveL
        rw [hfr]
      rw [heq] at hd'
      exact hq.1 d hd'
  · intro r' hr' hid
    obtain ⟨r, hmem, hideq, huid⟩ := hdb r' hr'
    rw [huid]
    exact hq.2 r hmem (hideq.symm.trans hid)

theorem collectSessions_own (uid : String) :
    ∀ (ids : List String) (w : World) (l : List SessionData) (w' : World),
      WNF w → (∀ sid ∈ ids, QOwner w sid uid) →
      collectSessions ids w = (.ok l, w') →
      ∀ d ∈ l, d.userId = uid ∧ ¬ d.expiresAt < w.nowMs := by
  intro ids
  induction ids with
  | nil =>
    intro w l w' hw hq hrun
    simp only [collectSessions, Prod.mk.injEq, Except.ok.injEq] at hrun
    obtain ⟨hl, _⟩ := hrun
    subst hl
    intro d hd
    exact absurd hd (List.not_mem_nil d)
  | cons sid rest ih =>
    intro w l w' hw hq hrun
    simp only [collectSessions] at hrun
    rcases hv : validateSession sid w with ⟨res, w1⟩
    rw [hv] at hrun
    obtain ⟨hw1, hnow1, _, _, _, _, _⟩ := validateSession_foot hw hv
    have hq1 : ∀ s ∈ rest, QOwner w1 s uid :=
      fun s hs => QOwner_pres hw hv (hq s (List.mem_cons_of_mem _ hs))
    cases res with
    | error e =>
      simp only [] at hrun
      simp at hrun
    | ok o =>
      cases o with
      | none =>
        simp only [] at hrun
        intro d hd
        have hres := ih w1 l w' hw1 hq1 hrun d hd
        exact ⟨hres.1, hnow1 ▸ hres.2⟩
      | some d0 =>
        simp only [] at hrun
        rcases hcol : collectSessions rest w1 with ⟨res2, w2⟩
        rw [hcol] at hrun
        cases res2 with
        | error e =>
          simp only [] at hrun
          simp at hrun
        | ok l2 =>
          simp only [Prod.mk.injEq, Except.ok.injEq] at hrun
          obtain ⟨hl, hw'⟩ := hrun
          subst hw'
          subst hl
          intro d hd
          rcases List.mem_cons.mp hd with h | h
          · subst h
            have hsound := validateSession_sound hv
            constructor
            · rcases hsound.2.2 with hfast | ⟨_, r, u', hfind, _, hrec⟩
              · exact (hq sid (List.mem_cons_self _ _)).1 d hfast
              · obtain ⟨hmem, hid, _⟩ := findActiveSession_mem hfind
                rw [hrec]
                exact (hq sid (List.mem_cons_self _ _)).2 r hmem hid
            · exact hsound.1
          · have hres := ih w1 l2 w2 hw1 hq1 hcol d h
            exact ⟨hres.1, hnow1 ▸ hres.2⟩

theorem validateSession_IndexOwned {sid : String} {w : World}
    {res : Except Unit (Option SessionData)} {w1 : World}
    (hw : WNF w) (hio : IndexOwned w)
    (hv : validateSession sid w = (res, w1)) : IndexOwned w1 := by
  obtain ⟨hwnf, hnow, husers, hframe, hsid, hdb, hmono⟩ :=
    validateSession_foot hw hv
  intro uid sid' hf
  rw [hnow] at hf
  exact QOwner_pres hw hv (hio uid sid' (hmono uid sid' hf))

theorem lookup_sess_owner {now : Nat} {l : List (String × REntry)} {k : String}
    {dat : SessionData} {X : Option Nat} {d : SessionData}
    (hk : aget l k = some ⟨.str (.sess dat), X⟩)
    (hd : lookupAliveL now l k = some (.str (.sess d))) : d = dat := by
  unfold lookupAliveL at hd
  rw [hk] at hd
  simp only [] at hd
  by_cases hal : aliveAt now X
  · rw [if_pos hal] at hd
    simp only [Option.some.injEq, RContent.str.injEq, SVal.sess.injEq] at hd
    exact hd.symm
  · rw [if_neg hal] at hd
    simp at hd

theorem triple_aset_facts (l : List (String × REntry)) (sid uid0 : String)
    (E1 E2 E3 : REntry) :
    (∀ s, s ≠ sid → aget (aset (aset (aset l (sessKeyOf sid) E1)
        (userKeyOf uid0) E2) (userKeyOf uid0) E3) (sessKeyOf s) =
      aget l (sessKeyOf s)) ∧
    aget (aset (aset (aset l (sessKeyOf sid) E1) (userKeyOf uid0) E2)
      (userKeyOf uid0) E3) (sessKeyOf sid) = some E1 ∧
    (∀ u0, u0 ≠ uid0 → aget (aset (aset (aset l (sessKeyOf sid) E1)
        (userKeyOf uid0) E2) (userKeyOf uid0) E3) (userKeyOf u0) =
      aget l (userKeyOf u0)) ∧
    aget (aset (aset (aset l (sessKeyOf sid) E1) (userKeyOf uid0) E2)
      (userKeyOf uid0) E3) (userKeyOf uid0) = some E3 := by
  refine ⟨?_, ?_, ?_, ?_⟩
  · intro s hs
    rw [aget_aset_ne _ _ (sessKeyOf_ne_userKeyOf s uid0),
      aget_aset_ne _ _ (sessKeyOf_ne_userKeyOf s uid0),
      aget_aset_ne _ _ fun hc => hs (sessKeyOf_inj hc)]
  · rw [aget_aset_ne _ _ (sessKeyOf_ne_userKeyOf sid uid0),
      aget_aset_ne _ _ (sessKeyOf_ne_userKeyOf sid uid0), aget_aset_self]
  · intro u0 hu0
    rw [aget_aset_ne _ _ fun hc => hu0 (userKeyOf_inj hc),
      aget_aset_ne _ _ fun hc => hu0 (userKeyOf_inj hc),
      aget_aset_ne _ _ (Ne.symm (sessKeyOf_ne_userKeyOf sid u0))]
  · rw [aget_aset_self]

theorem createSession_idx {w : World} (ttl : Nat) (user : UserResponseDto)
    (tok : Token) (ip ua : Option String) (sid : String) (hw : WNF w)
    (hty : ∀ e, aget w.redis (userKeyOf user.id) = some e →
      aliveAt w.nowMs e.expireAtMs = true → ∀ v, e.content ≠ .str v)
    (hfresh : ∀ r ∈ w.db.sessions, r.id ≠ sid) :
    ∃ w', createSession ttl user tok ip ua sid w = (.ok sid, w') ∧
      WNF w' ∧ w'.nowMs = w.nowMs ∧ w'.db.users = w.db.users ∧
      w'.db.sessions = w.db.sessions ++ [newDbRow ttl user tok sid w.nowMs] ∧
      (∀ s, s ≠ sid →
        aget w'.redis (sessKeyOf s) = aget w.redis (sessKeyOf s)) ∧
      (∀ d, lookupAlive w' (sessKeyOf sid) = some (.str (.sess d)) →
        d.userId = user.id) ∧
      (∀ u0, u0 ≠ user.id →
        aget w'.redis (userKeyOf u0) = aget w.redis (userKeyOf u0)) ∧
      (∀ f, hasFieldL w.nowMs w'.redis (userKeyOf user.id) f = true →
        hasFieldL w.nowMs w.redis (userKeyOf user.id) f = true ∨ f = sid) := by
  obtain ⟨hrf, hdf⟩ := hw
  have hne : ∀ (l : List (String × REntry)) (E : REntry),
      aget (aset l (sessKeyOf sid) E) (userKeyOf user.id) =
        aget l (userKeyOf user.id) :=
    fun l E => aget_aset_ne l E (Ne.symm (sessKeyOf_ne_userKeyOf sid user.id))
  have hanyf : (w.db.sessions.any fun r => r.id == sid) = false := by
    rw [List.any_eq_false]
    intro r hr
    simp [hfresh r hr]
  have halive : aliveAt w.nowMs
      (if ttl = 0 then none else some (w.nowMs + ttl * 1000)) = true := by
    by_cases h0 : ttl = 0
    · simp [h0, aliveAt]
    · have : 0 < ttl * 1000 := Nat.mul_pos (Nat.pos_of_ne_zero h0) (by norm_num)
      simp [h0, aliveAt]
      omega
  rcases hu : aget w.redis (userKeyOf user.id) with _ | e
  · obtain ⟨hfr, hget1, hfru, hget3⟩ := triple_aset_facts w.redis sid user.id
      ⟨.str (.sess ⟨user.id, user.email, user.role, tok, w.nowMs, w.nowMs + ttl * 1000, ip, ua⟩), if ttl = 0 then none else some (w.nowMs + ttl * 1000)⟩
      ⟨.hash [(sid, sessKeyOf sid)], none⟩
      ⟨.hash [(sid, sessKeyOf sid)], some (w.nowMs + ttl * 1000)⟩
    refine ⟨⟨aset (aset (aset w.redis (sessKeyOf sid) ⟨.str (.sess ⟨user.id, user.email, user.role, tok, w.nowMs, w.nowMs + ttl * 1000, ip, ua⟩), if ttl = 0 then none else some (w.nowMs + ttl * 1000)⟩) (userKeyOf user.id) ⟨.hash [(sid, sessKeyOf sid)], none⟩) (userKeyOf user.id) ⟨.hash [(sid, sessKeyOf sid)], some (w.nowMs + ttl * 1000)⟩, ⟨w.db.sessions ++ [newDbRow ttl user tok sid w.nowMs], w.db.users⟩, w.nowMs, [], []⟩,
      ?_, ⟨rfl, rfl⟩, rfl, rfl, rfl, hfr, ?_, hfru, ?_⟩
    · simp only [createSession, redisSet_nf, redisHset_nf, redisExpire_nf,
        hrf, hne, hu, aget_aset_self]
      simp only [aliveAt, if_true]
      simp only [dbCreateSession_nf, hdf, hanyf, Bool.false_eq_true, if_false]
      rfl
    · intro d hd
      rw [lookup_sess_owner hget1 hd]
    · intro f hf
      unfold hasFieldL lookupAliveL at hf
      rw [hget3] at hf
      simp only [] at hf
      by_cases hal3 : aliveAt w.nowMs (some (w.nowMs + ttl * 1000))
      · rw [if_pos hal3] at hf
        simp only [List.any_cons, List.any_nil, Bool.or_false] at hf
        exact Or.inr (beq_iff_eq.mp hf).symm
      · rw [if_neg hal3] at hf
        simp at hf
  · by_cases hal : aliveAt w.nowMs e.expireAtMs
    · rcases hcont : e.content with v' | flds
      · exact absurd hcont (hty e hu hal v')
      · obtain ⟨hfr, hget1, hfru, hget3⟩ := triple_aset_facts w.redis sid user.id
          ⟨.str (.sess ⟨user.id, user.email, user.role, tok, w.nowMs, w.nowMs + ttl * 1000, ip, ua⟩), if ttl = 0 then none else some (w.nowMs + ttl * 1000)⟩
          ⟨.hash (fset flds sid (sessKeyOf sid)), e.expireAtMs⟩
          ⟨.hash (fset flds sid (sessKeyOf sid)), some (w.nowMs + ttl * 1000)⟩
        refine ⟨⟨aset (aset (aset w.redis (sessKeyOf sid) ⟨.str (.sess ⟨user.id, user.email, user.role, tok, w.nowMs, w.nowMs + ttl * 1000, ip, ua⟩), if ttl = 0 then none else some (w.nowMs + ttl * 1000)⟩) (userKeyOf user.id) ⟨.hash (fset flds sid (sessKeyOf sid)), e.expireAtMs⟩) (userKeyOf user.id) ⟨.hash (fset flds sid (sessKeyOf sid)), some (w.nowMs + ttl * 1000)⟩, ⟨w.db.sessions ++ [newDbRow ttl user tok sid w.nowMs], w.db.users⟩, w.nowMs, [], []⟩,
          ?_, ⟨rfl, rfl⟩, rfl, rfl, rfl, hfr, ?_, hfru, ?_⟩
        · simp only [createSession, redisSet_nf, redisHset_nf, hrf, hne, hu,
            hal, hcont, aget_aset_self]
          simp only [redisExpire_nf, aget_aset_self, hal, if_true]
          simp only [dbCreateSession_nf, hdf, hanyf, Bool.false_eq_true,
            if_false]
          rfl
        · intro d hd
          rw [lookup_sess_owner hget1 hd]
        · intro f hf
          unfold hasFieldL lookupAliveL at hf
          rw [hget3] at hf
          simp only [] at hf
          by_cases hal3 : aliveAt w.nowMs (some (w.nowMs + ttl * 1000))
          · rw [if_pos hal3] at hf
            rcases any_fset_rev hf with h1 | h1
            · left
              unfold hasFieldL
              have hlook : lookupAliveL w.nowMs w.redis (userKeyOf user.id) =
                  some (.hash flds) := by
                simp [lookupAliveL, hu, hal, hcont]
              rw [hlook]
              exact h1
            · exact Or.inr h1
          · rw [if_neg hal3] at hf
            simp at hf
    · obtain ⟨hfr, hget1, hfru, hget3⟩ := triple_aset_facts w.redis sid user.id
        ⟨.str (.sess ⟨user.id, user.email, user.role, tok, w.nowMs, w.nowMs + ttl * 1000, ip, ua⟩), if ttl = 0 then none else some (w.nowMs + ttl * 1000)⟩
        ⟨.hash [(sid, sessKeyOf sid)], none⟩
        ⟨.hash [(sid, sessKeyOf sid)], some (w.nowMs + ttl * 1000)⟩
      refine ⟨⟨aset (aset (aset w.redis (sessKeyOf sid) ⟨.str (.sess ⟨user.id, user.email, user.role, tok, w.nowMs, w.nowMs + ttl * 1000, ip, ua⟩), if ttl = 0 then none else some (w.nowMs + ttl * 1000)⟩) (userKeyOf user.id) ⟨.hash [(sid, sessKeyOf sid)], none⟩) (userKeyOf user.id) ⟨.hash [(sid, sessKeyOf sid)], some (w.nowMs + ttl * 1000)⟩, ⟨w.db.sessions ++ [newDbRow ttl user tok sid w.nowMs], w.db.users⟩, w.nowMs, [], []⟩,
        ?_, ⟨rfl, rfl⟩, rfl, rfl, rfl, hfr, ?_, hfru, ?_⟩
      · rw [Bool.not_eq_true] at hal
        simp only [createSession, redisSet_nf, redisHset_nf, redisExpire_nf,
          hrf, hne, hu, hal, aget_aset_self, Bool.false_eq_true, if_false,
          aliveAt_none, if_true]
        simp only [dbCreateSession_nf, hdf, hanyf, Bool.false_eq_true,
          if_false]
        rfl
      · intro d hd
        rw [lookup_sess_owner hget1 hd]
      · intro f hf
        unfold hasFieldL lookupAliveL at hf
        rw [hget3] at hf
        simp only [] at hf
        by_cases hal3 : aliveAt w.nowMs (some (w.nowMs + ttl * 1000))
        · rw [if_pos hal3] at hf
          simp only [List.any_cons, List.any_nil, Bool.or_false] at hf
          exact Or.inr (beq_iff_eq.mp hf).symm
        · rw [if_neg hal3] at hf
          simp at hf

theorem createSession_IndexOwned {w : World} (ttl : Nat)
    (user : UserResponseDto) (tok : Token) (ip ua : Option String)
    (sid : String) (hw : WNF w) (hio : IndexOwned w)
    (hty : ∀ e, aget w.redis (userKeyOf user.id) = some e →
      aliveAt w.nowMs e.expireAtMs = true → ∀ v, e.content ≠ .str v)
    (hfresh : ∀ r ∈ w.db.sessions, r.id ≠ sid)
    (hfidx : ∀ u0, hasFieldL w.nowMs w.redis (userKeyOf u0) sid = false) :
    ∃ w', createSession ttl user tok ip ua sid w = (.ok sid, w') ∧
      IndexOwned w' := by
  obtain ⟨w', hrun, hwnf, hnow, husers, hsess, hfrS, hsidD, hfrU, hg⟩ :=
    createSession_idx ttl user tok ip ua sid hw hty hfresh
  refine ⟨w', hrun, ?_⟩
  intro u0 f hf
  rw [hnow] at hf
  have htrans : ∀ (u1 f1 : String), f1 ≠ sid →
      hasFieldL w.nowMs w.redis (userKeyOf u1) f1 = true →
      QOwner w' f1 u1 := by
    intro u1 f1 hne1 hf1
    have hq := hio u1 f1 hf1
    constructor
    · intro d hd
      have hd' : lookupAliveL w.nowMs w'.redis (sessKeyOf f1) =
          some (.str (.sess d)) := by
        rw [← hnow]
        exact hd
      have heq : lookupAliveL w.nowMs w'.redis (sessKeyOf f1) =
          lookupAlive w (sessKeyOf f1) := by
        unfold lookupAlive lookupAliveL
        rw [hfrS f1 hne1]
      rw [heq] at hd'
      exact hq.1 d hd'
    · intro r hr hid
      rw [hsess] at hr
      rcases List.mem_append.mp hr with h | h
      · exact hq.2 r h hid
      · simp only [List.mem_singleton] at h
        subst h
        exact absurd (show f1 = sid from hid.symm) hne1
  by_cases hu0 : u0 = user.id
  · subst hu0
    rcases hg f hf with hold | hfs
    · by_cases hfsid : f = sid
      · subst hfsid
        rw [hfidx user.id] at hold
        exact absurd hold (by simp)
      · exact htrans user.id f hfsid hold
    · subst hfs
      constructor
      · intro d hd
        exact hsidD d hd
      · intro r hr hid
        rw [hsess] at hr
        rcases List.mem_append.mp hr with h | h
        · exact absurd hid (hfresh r h)
        · simp only [List.mem_singleton] at h
          subst h
          rfl
  · have hframe : hasFieldL w.nowMs w'.redis (userKeyOf u0) f =
        hasFieldL w.nowMs w.redis (userKeyOf u0) f := by
      unfold hasFieldL lookupAliveL
      rw [hfrU u0 hu0]
    rw [hframe] at hf
    by_cases hfsid : f = sid
    · rw [hfsid, hfidx u0] at hf
      exact absurd hf (by simp)
    · exact htrans u0 f hfsid hf

/-- C10: in any state whose per-user indices only hold owned session ids
(IndexOwned), every record returned by getUserSessions(u) carries userId = u
and is unexpired at the time of the read; and the invariant is maintained:
validateSession preserves it, and createSession with a fresh session id
(no durable row and no index membership under that id) preserves it while
recording the new id under its owner's index only. -/
theorem thm_C10 :
    (∀ (uid : String) (w : World) (l : List SessionData) (w' : World),
      WNF w → IndexOwned w → getUserSessions uid w = (.ok l, w') →
      ∀ d ∈ l, d.userId = uid ∧ ¬ d.expiresAt < w.nowMs) ∧
    (∀ (sid : String) (w : World) (res : Except Unit (Option SessionData))
      (w1 : World), WNF w → IndexOwned w →
      validateSession sid w = (res, w1) → IndexOwned w1) ∧
    (∀ (ttl : Nat) (user : UserResponseDto) (tok : Token)
      (ip ua : Option String) (sid : String) (w : World),
      WNF w → IndexOwned w →
      (∀ e, aget w.redis (userKeyOf user.id) = some e →
        aliveAt w.nowMs e.expireAtMs = true → ∀ v, e.content ≠ .str v) →
      (∀ r ∈ w.db.sessions, r.id ≠ sid) →
      (∀ u0, hasFieldL w.nowMs w.redis (userKeyOf u0) sid = false) →
      ∃ w', createSession ttl user tok ip ua sid w = (.ok sid, w') ∧
        IndexOwned w') := by
  refine ⟨?_, ?_, ?_⟩
  · intro uid w l w' hw hio hrun
    simp only [getUserSessions, redisHgetall_nf hw.1] at hrun
    cases hl : lookupAlive w (userKeyOf uid) with
    | none =>
      rw [hl] at hrun
      simp only [List.map_nil] at hrun
      exact collectSessions_own uid [] w l w' hw
        (fun s hs => absurd hs (List.not_mem_nil s)) hrun
    | some c =>
      cases c with
      | str v =>
        rw [hl] at hrun
        simp only [] at hrun
        simp at hrun
      | hash flds =>
        rw [hl] at hrun
        simp only [] at hrun
        have hmemb : ∀ s ∈ flds.map Prod.fst,
            hasFieldL w.nowMs w.redis (userKeyOf uid) s = true := by
          intro s hs
          obtain ⟨p, hp, hps⟩ := List.mem_map.mp hs
          unfold hasFieldL
          rw [show lookupAliveL w.nowMs w.redis (userKeyOf uid) =
            some (.hash flds) from hl]
          exact List.any_eq_true.mpr ⟨p, hp, by simp [hps]⟩
        exact collectSessions_own uid (flds.map Prod.fst) w l w' hw
          (fun s hs => hio uid s (hmemb s hs)) hrun
  · intro sid w res w1 hw hio hv
    exact validateSession_IndexOwned hw hio hv
  · intro ttl user tok ip ua sid w hw hio hty hfresh hfidx
    exact createSession_IndexOwned ttl user tok ip ua sid hw hio hty hfresh hfidx

theorem exWorldC8_IndexOwned : IndexOwned exWorldC8 := by
  intro uid sid hf
  by_cases h1 : userKeyOf uid = "session:s1"
  · exfalso
    have hd := congrArg String.data h1
    simp only [userKeyOf, String.data_append] at hd
    simp at hd
  · by_cases h2 : userKeyOf uid = "user_sessions:u1"
    · have h2' : userKeyOf uid = userKeyOf "u1" := h2
      have huid : uid = "u1" := userKeyOf_inj h2'
      subst huid
      have hsid : sid = "s1" := by
        unfold hasFieldL lookupAliveL at hf
        simp only [exWorldC8] at hf
        simp [aget, aliveAt, h1, h2] at hf
        exact hf.symm
      subst hsid
      constructor
      · intro d hd
        rw [show lookupAlive exWorldC8 (sessKeyOf "s1") =
          some (.str (.sess exSess)) from rfl] at hd
        simp only [Option.some.injEq, RContent.str.injEq,
          SVal.sess.injEq] at hd
        rw [← hd]
        rfl
      · intro r hr hid
        simp only [exWorldC8, List.mem_singleton] at hr
        subst hr
        rfl
    · exfalso
      unfold hasFieldL lookupAliveL at hf
      simp only [exWorldC8] at hf
      simp [aget, h1, h2] at hf

theorem thm_C10_witness :
    (WNF exWorldC8 ∧ IndexOwned exWorldC8 ∧
      getUserSessions "u1" exWorldC8 = (.ok [exSess], exWorldC8) ∧
      ∀ d ∈ [exSess], d.userId = "u1" ∧ ¬ d.expiresAt < exWorldC8.nowMs) ∧
    (validateSession "s1" exWorldC8 = (.ok (some exSess), exWorldC8) ∧
      IndexOwned exWorldC8) ∧
    (∃ w', createSession 4 exUser exTok none none "s2" exWorld =
      (.ok "s2", w') ∧ IndexOwned w') :=
  ⟨⟨⟨rfl, rfl⟩, exWorldC8_IndexOwned, rfl,
    thm_C10.1 "u1" exWorldC8 [exSess] exWorldC8 ⟨rfl, rfl⟩
      exWorldC8_IndexOwned rfl⟩,
   ⟨rfl, thm_C10.2.1 "s1" exWorldC8 (.ok (some exSess)) exWorldC8 ⟨rfl, rfl⟩
      exWorldC8_IndexOwned rfl⟩,
   thm_C10.2.2 4 exUser exTok none none "s2" exWorld ⟨rfl, rfl⟩
     (fun uid sid hf => absurd hf (by simp [exWorld, hasFieldL, lookupAliveL, aget]))
     (fun e he => absurd he (by simp [exWorld, aget]))
     (fun r hr => absurd hr (by simp [exWorld]))
     (fun u0 => rfl)⟩
